import Mathlib

/-!
Shallow embedding of the café roster scheduler
(src/scheduler/engine_baseline.py, src/scheduler/scoring.py,
src/scheduler/services/scoring.py, src/scheduler/services/requirements.py,
src/scheduler/validator.py, src/scheduler/ai/validator.py,
src/scheduler/constraints.py, src/scheduler/config.py).

Conventions of the embedding:
- Python floats are modelled as rationals; the arithmetic the code performs
  (+, -, *, /, comparisons) is exact on the inputs used here.  The one
  transcendental operation, the square root inside the pandas population
  standard deviation, is modelled by ratSqrt below, which is exact whenever
  the variance is the square of a rational; every theorem that evaluates it
  does so at such an input.
- Python dicts are association lists with first-match lookup; dict update
  (d[k] = v) replaces the binding in place or appends (setKV, whAdd).
- A pandas DataFrame of employees/shifts is a list of records in row order;
  boolean-mask filtering is List.filter (which preserves row order), and
  Series.idxmax is argmaxBy (first occurrence of the maximum, as idxmax
  returns the first maximal label in row order).
- ISO datetime strings are modelled by a calendar date (Date, carrying the
  %Y-%m-%d rendering and the pandas day_name() of the date) plus a
  time-of-day (HM); a timedelta total_seconds()/3600 between two same-day
  times is durationHours.
-/

-- The rational arithmetic operations are shipped irreducible, which blocks
-- the evaluation of the engine on concrete inputs; restore the ordinary
-- reducibility (proof checking is unaffected).
set_option allowUnsafeReducibility true in
attribute [semireducible] Rat.add Rat.mul Rat.div Rat.sub Rat.inv Rat.neg

namespace Roster

/-- A time of day, embedding the "HH:MM" strings of the config
(data_io.local_day_bounds parses them into hour/minute). -/
structure HM where
  hour : Nat
  minute : Nat
deriving DecidableEq, Repr

/-- Minutes since midnight. -/
def HM.toMinutes (t : HM) : Int := t.hour * 60 + t.minute

/-- Duration in (fractional) hours between two times on the same day,
as (end_dt - start_dt).total_seconds() / 3600.0 computes it in
engine_baseline.py. -/
def durationHours (s e : HM) : ℚ := ((HM.toMinutes e - HM.toMinutes s : Int) : ℚ) / 60

/-- A calendar date: iso is the %Y-%m-%d string, dayName the pandas
Timestamp.day_name() ("Monday" .. "Sunday") of that date. -/
structure Date where
  iso : String
  dayName : String
deriving DecidableEq, Repr

/-- One employee row of the employees DataFrame (data_io.read_employees).
Skill columns may be absent/NaN; row.get(col, 0) reads them with default 0. -/
structure Employee where
  employee_id : Int
  primary_role : String
  skill_coffee : Option ℚ := none
  skill_sandwich : Option ℚ := none
  skill_speed : Option ℚ := none
  customer_service_rating : Option ℚ := none
deriving DecidableEq, Repr

/-- One shift row (an operating day): shift_id and date. -/
structure Shift where
  shift_id : Int
  date : Date
deriving DecidableEq, Repr

/-- engine_baseline.Assignment.  The source stores ISO datetime strings;
here the date and the time-of-day window are carried separately. -/
structure Assignment where
  shift_id : Int
  emp_id : Int
  date : Date
  start_time : HM
  end_time : HM
  role : String
  shift_type : Option String := none
  day_type : Option String := none
deriving DecidableEq, Repr

/-- A "start"/"end" time-window dict of role_time_windows. -/
structure Window where
  start : HM
  stop : HM
deriving DecidableEq, Repr

/-- A value under a role_time_windows key: either a single window dict
(isinstance(..., dict) in the source) or a list of window dicts
(isinstance(..., list)). -/
inductive WinPattern where
  | single (w : Window)
  | several (ws : List Window)
deriving DecidableEq, Repr

/-- The per-role dict of time-window patterns, keyed by "weekday",
"weekend_staggered" and "weekend" in the source. -/
structure RoleWindows where
  weekday : Option WinPattern := none
  weekend_staggered : Option WinPattern := none
  weekend : Option WinPattern := none
deriving DecidableEq, Repr

/-- A raw hours_policy entry dict; the code reads each key with .get and a
default, so each field is optional. -/
structure HoursPolicyEntry where
  target_min : Option ℚ := none
  target_max : Option ℚ := none
  hard_cap : Option ℚ := none
deriving DecidableEq, Repr

/-- A raw weekend_fallback entry dict (enabled / min_required /
allow_single_full_shift, each read with .get and a default). -/
structure FallbackEntry where
  enabled : Option Bool := none
  min_required : Option Int := none
  allow_single_full_shift : Option Bool := none
deriving DecidableEq, Repr

/-- config.Weights. -/
structure Weights where
  manager_weight : ℚ := 1
  coffee : ℚ := 1
  sandwich : ℚ := 1
  speed : ℚ := 1/2
  customer_service : ℚ := 1/2
  fairness_penalty_per_std_above_median : ℚ := 1/4
deriving DecidableEq, Repr

/-- config.SchedulerConfig (the fields the engine reads).  The timezone is a
run-wide constant and never changes any duration, so it is dropped;
weekend_requirements is the attribute build_requirements_for_day reads from
the config object. -/
structure SchedulerConfig where
  default_shift_start : HM := ⟨7, 0⟩
  default_shift_stop : HM := ⟨15, 0⟩
  default_requirements : List (String × Int) := []
  weekend_requirements : List (String × Int) := []
  overrides : List (String × List (String × Int)) := []
  max_hours_per_week_per_employee : ℚ := 40
  weights : Weights := {}
  busy_days : List String := ["Saturday", "Sunday"]
  role_time_windows : List (String × RoleWindows) := []
  hours_policy : List (String × HoursPolicyEntry) := []
  hours_penalties : List (String × ℚ) := [("per_hour_below_target", 1/2), ("per_hour_above_target", 3/4)]
  global_hard_cap : Option ℚ := none
  schedule_busy_days_first : Bool := false
  weekend_fallback : List (String × FallbackEntry) := []
deriving Repr

/-- str.upper() on the role strings (written over the character list so
that concrete evaluations reduce). -/
def toUpper (s : String) : String := String.mk (s.data.map Char.toUpper)

/-- float(row.get(col, 0)) / (employee.skill or 0.0): a missing skill
contributes 0. -/
def skillVal (o : Option ℚ) : ℚ := o.getD 0

/-- constraints.ROLES. -/
def ROLES : List String := ["MANAGER", "BARISTA", "WAITER", "SANDWICH"]

/-- constraints.is_role_eligible. -/
def is_role_eligible (primary_role required_role : String) : Bool :=
  let p := toUpper primary_role
  let r := toUpper required_role
  if !(ROLES.contains r) then false
  else if p == "SANDWICH" then r == "SANDWICH"
  else if p == "BARISTA" then r == "BARISTA"
  else if p == "WAITER" then r == "WAITER"
  else if p == "MANAGER" then r == "MANAGER"
  else false

/-- scoring.role_fitness. -/
def role_fitness (e : Employee) (role : String) (w : Weights) : ℚ :=
  let role := toUpper role
  if role == "MANAGER" then w.manager_weight
  else if role == "BARISTA" then
    w.coffee * skillVal e.skill_coffee + w.speed * skillVal e.skill_speed
      + w.customer_service * skillVal e.customer_service_rating
  else if role == "WAITER" then
    w.customer_service * skillVal e.customer_service_rating + w.speed * skillVal e.skill_speed
  else if role == "SANDWICH" then w.sandwich * skillVal e.skill_sandwich
  else 0

/-- Insertion into a sorted list of rationals (ascending). -/
def insertSorted (x : ℚ) : List ℚ → List ℚ
  | [] => [x]
  | y :: ys => if x ≤ y then x :: y :: ys else y :: insertSorted x ys

/-- Ascending sort of rationals (insertion sort; sortedness is all that the
median needs). -/
def sortQ (l : List ℚ) : List ℚ := l.foldr insertSorted []

/-- pandas Series.median(): middle of the sorted values, or the mean of the
two middle values for an even count. -/
def median (l : List ℚ) : ℚ :=
  let s := sortQ l
  let n := s.length
  if n = 0 then 0
  else if n % 2 = 1 then s.getD (n / 2) 0
  else (s.getD (n / 2 - 1) 0 + s.getD (n / 2) 0) / 2

/-- Mean of a list of rationals. -/
def meanQ (l : List ℚ) : ℚ := if l.length = 0 then 0 else l.sum / l.length

/-- Population variance (pandas std(ddof=0) squared). -/
def popVariance (l : List ℚ) : ℚ := meanQ (l.map (fun x => (x - meanQ l) ^ 2))

/-- Integer square root (largest i with i*i ≤ n), written as a bounded
scan so that concrete evaluations reduce. -/
def natSqrtLinear (n : Nat) : Nat :=
  ((List.range (n + 1)).filter (fun i => i * i ≤ n)).foldl max 0

/-- Rational square root, exact whenever the argument is the square of a
rational (numerator and denominator of the reduced fraction both perfect
squares); this embeds the float sqrt inside pandas std.  Every concrete
evaluation below applies it to such a value. -/
def ratSqrt (q : ℚ) : ℚ := (natSqrtLinear q.num.toNat : ℚ) / (natSqrtLinear q.den : ℚ)

/-- pandas Series.std(ddof=0). -/
def stdPop (l : List ℚ) : ℚ := ratSqrt (popVariance l)

/-- scoring.fairness_penalty: per-employee penalty for being above the
cohort median, in population standard deviations, times the configured
factor.  The hours series is the (employee_id, hours) pairs in cohort row
order; the role argument of the source is unused there as well. -/
def fairness_penalty (hours_series : List (Int × ℚ)) (role : String) (w : Weights) :
    List (Int × ℚ) :=
  if hours_series.isEmpty then []
  else
    let vals := hours_series.map (·.2)
    let med := median vals
    let std := stdPop vals
    if std = 0 then hours_series.map (fun p => (p.1, (0 : ℚ)))
    else
      hours_series.map (fun p =>
        (p.1, max 0 ((p.2 - med) / std) * w.fairness_penalty_per_std_above_median))

/-- scoring.hours_deviation_penalty.  A missing policy entry for the role
gives 0 (the "if not pol" guard); present entries are read with
.get("target_min", 0) / .get("target_max", 1e9), and the rates with
.get(..., 0.0). -/
def hours_deviation_penalty (current_hours : ℚ) (role : String)
    (hours_policy : List (String × HoursPolicyEntry))
    (hours_penalties : List (String × ℚ)) : ℚ :=
  match hours_policy.lookup role with
  | none => 0
  | some pol =>
    let tmin := pol.target_min.getD 0
    let tmax := pol.target_max.getD 1000000000
    let below := max 0 (tmin - current_hours)
    let above := max 0 (current_hours - tmax)
    below * ((hours_penalties.lookup "per_hour_below_target").getD 0)
      + above * ((hours_penalties.lookup "per_hour_above_target").getD 0)

/-- services/scoring.calculate_role_fitness: like role_fitness but over a
raw weights dict, read with .get and the documented defaults. -/
def calculate_role_fitness (e : Employee) (role : String)
    (weights : List (String × ℚ)) : ℚ :=
  let role := toUpper role
  if role == "MANAGER" then (weights.lookup "manager_weight").getD 1
  else if role == "BARISTA" then
    (weights.lookup "coffee").getD 1 * skillVal e.skill_coffee
      + (weights.lookup "speed").getD (1/2) * skillVal e.skill_speed
      + (weights.lookup "customer_service").getD (1/2) * skillVal e.customer_service_rating
  else if role == "WAITER" then
    (weights.lookup "customer_service").getD (1/2) * skillVal e.customer_service_rating
      + (weights.lookup "speed").getD (1/2) * skillVal e.skill_speed
  else if role == "SANDWICH" then
    (weights.lookup "sandwich").getD 1 * skillVal e.skill_sandwich
  else 0

/-- min over a nonempty list of rationals (min over dict values); 0 for the
empty list, which the callers rule out. -/
def listMin : List ℚ → ℚ
  | [] => 0
  | x :: xs => xs.foldl min x

/-- services/scoring.calculate_fairness_penalty: difference from the
cohort minimum times the factor; cohorts of at most one member get 0. -/
def calculate_fairness_penalty (emp_id : Int) (current_hours : ℚ)
    (cohort_hours : List (Int × ℚ)) (penalty_per_std : ℚ) : ℚ :=
  if cohort_hours.length ≤ 1 then 0
  else
    let min_hours := listMin (cohort_hours.map (·.2))
    if current_hours ≤ min_hours then 0
    else penalty_per_std * (current_hours - min_hours)

/-- services/scoring.calculate_hours_deviation_penalty: reads the policy of
role.upper() with defaults target_min 0 / target_max 40, rates with
defaults 0.5 / 0.75, and penalizes the side of the band the given hours
fall on. -/
def calculate_hours_deviation_penalty (current_hours : ℚ) (role : String)
    (hours_policy : List (String × HoursPolicyEntry))
    (hours_penalties : List (String × ℚ)) : ℚ :=
  let pol := (hours_policy.lookup (toUpper role)).getD {}
  let tmin := pol.target_min.getD 0
  let tmax := pol.target_max.getD 40
  if current_hours < tmin then
    (tmin - current_hours) * ((hours_penalties.lookup "per_hour_below_target").getD (1/2))
  else if current_hours > tmax then
    (current_hours - tmax) * ((hours_penalties.lookup "per_hour_above_target").getD (3/4))
  else 0

/-- services/scoring.calculate_employee_score: fitness minus fairness
penalty minus hours-deviation penalty, the latter applied to the
current_hours argument as given. -/
def calculate_employee_score (e : Employee) (role : String) (current_hours : ℚ)
    (role_cohort_hours : List (Int × ℚ)) (weights : List (String × ℚ))
    (hours_policy : List (String × HoursPolicyEntry))
    (hours_penalties : List (String × ℚ)) : ℚ :=
  let fitness := calculate_role_fitness e role weights
  let fair := calculate_fairness_penalty e.employee_id current_hours role_cohort_hours
    ((weights.lookup "fairness_penalty_per_std_above_median").getD (1/4))
  let hp := calculate_hours_deviation_penalty current_hours role hours_policy hours_penalties
  fitness - fair - hp

/-- Python dict assignment d[k] = v on an association list: replace the
binding of k in place if present, else append. -/
def setKV (m : List (String × Int)) (k : String) (v : Int) : List (String × Int) :=
  if (m.lookup k).isSome then m.map (fun p => if p.1 = k then (k, v) else p)
  else m ++ [(k, v)]

/-- engine_baseline.build_requirements_for_day (the services/requirements.py
copy is the same function): defaults, overlaid with weekend requirements
when the date's day name is Saturday or Sunday (a hardcoded check), then
overlaid with the date-specific override if present. -/
def build_requirements_for_day (date : Date) (cfg : SchedulerConfig) :
    List (String × Int) :=
  match cfg.overrides.lookup date.iso with
  | none =>
    if date.dayName == "Saturday" || date.dayName == "Sunday" then
      cfg.weekend_requirements.foldl (fun m p => setKV m p.1 p.2) cfg.default_requirements
    else cfg.default_requirements
  | some ov =>
    ov.foldl (fun m p => setKV m p.1 p.2)
      (if date.dayName == "Saturday" || date.dayName == "Sunday" then
        cfg.weekend_requirements.foldl (fun m p => setKV m p.1 p.2) cfg.default_requirements
      else cfg.default_requirements)

/-- defaultdict(float) read: weekly_hours[emp], 0 when absent. -/
def whGet (wh : List (Int × ℚ)) (e : Int) : ℚ := (wh.lookup e).getD 0

/-- defaultdict(float) update: weekly_hours[emp] += d. -/
def whAdd (wh : List (Int × ℚ)) (e : Int) (d : ℚ) : List (Int × ℚ) :=
  if (wh.lookup e).isSome then wh.map (fun p => if p.1 = e then (p.1, p.2 + d) else p)
  else wh ++ [(e, d)]

/-- set.add on the assigned_today set (membership is all that is read). -/
def setAdd (s : List Int) (e : Int) : List Int := if s.contains e then s else s ++ [e]

/-- The per-role hard cap: cfg.hours_policy.get(role, {}) read with
.get("hard_cap", cfg.hours_caps.max_hours_per_week_per_employee). -/
def roleHardCap (cfg : SchedulerConfig) (role : String) : ℚ :=
  (((cfg.hours_policy.lookup role).getD {}).hard_cap).getD cfg.max_hours_per_week_per_employee

/-- The default shift window (cfg.default_shift.start / .end). -/
def defaultW (cfg : SchedulerConfig) : Window :=
  ⟨cfg.default_shift_start, cfg.default_shift_stop⟩

/-- greedy_schedule.eligible_mask: not yet assigned today, projected hours
within the role hard cap and the optional global hard cap, and role
eligible.  greedy_schedule.eligible_fb inside the weekend fallback is this
same predicate at the default window. -/
def eligible_mask (cfg : SchedulerConfig) (role : String) (w : Window)
    (assigned_today : List Int) (wh : List (Int × ℚ)) (e : Employee) : Bool :=
  if assigned_today.contains e.employee_id then false
  else
    let slot_hours := durationHours w.start w.stop
    if whGet wh e.employee_id + slot_hours > roleHardCap cfg role then false
    else
      match cfg.global_hard_cap with
      | some g =>
        if whGet wh e.employee_id + slot_hours > g then false
        else is_role_eligible e.primary_role role
      | none => is_role_eligible e.primary_role role

/-- Series.idxmax over scores in row order: the first element attaining the
maximum (a later element replaces the best only on a strictly greater
score). -/
def argmaxBy {α : Type} (f : α → ℚ) : List α → Option α
  | [] => none
  | x :: xs => some (xs.foldl (fun best y => if f y > f best then y else best) x)

/-- greedy_schedule.score_row: -1000 when the projected hours exceed the
role hard cap, else fitness minus the precomputed cohort fairness penalty
minus the hours-deviation penalty at the projected hours. -/
def score_row (cfg : SchedulerConfig) (role : String) (w : Window)
    (wh : List (Int × ℚ)) (fairness_map : List (Int × ℚ)) (e : Employee) : ℚ :=
  let post_hours := whGet wh e.employee_id + durationHours w.start w.stop
  if post_hours > roleHardCap cfg role then -1000
  else
    role_fitness e role cfg.weights
      - ((fairness_map.lookup e.employee_id).getD 0)
      - hours_deviation_penalty post_hours role cfg.hours_policy cfg.hours_penalties

/-- greedy_schedule.fb_score (the weekend-fallback scorer): like score_row
but without the hard-cap branch. -/
def fb_score (cfg : SchedulerConfig) (role : String) (w : Window)
    (wh : List (Int × ℚ)) (fairness_map : List (Int × ℚ)) (e : Employee) : ℚ :=
  let post_h := whGet wh e.employee_id + durationHours w.start w.stop
  role_fitness e role cfg.weights
    - ((fairness_map.lookup e.employee_id).getD 0)
    - hours_deviation_penalty post_h role cfg.hours_policy cfg.hours_penalties

/-- The alternate-candidate scorer of the backtracking scan (fitness minus
fairness, no hours term). -/
def alt_score (cfg : SchedulerConfig) (role : String)
    (fairness_map : List (Int × ℚ)) (e : Employee) : ℚ :=
  role_fitness e role cfg.weights - ((fairness_map.lookup e.employee_id).getD 0)

/-- The candidate pool of a slot: role_candidates filtered by
eligible_mask. -/
def slotPool (cfg : SchedulerConfig) (role : String) (w : Window)
    (assigned_today : List Int) (wh : List (Int × ℚ))
    (role_candidates : List Employee) : List Employee :=
  role_candidates.filter (eligible_mask cfg role w assigned_today wh)

/-- The strict re-filter of a nonempty pool (engine_baseline lines 266-272):
keep only candidates whose projected hours stay at or below the role hard
cap. -/
def strictPool (cfg : SchedulerConfig) (role : String) (w : Window)
    (assigned_today : List Int) (wh : List (Int × ℚ))
    (role_candidates : List Employee) : List Employee :=
  (slotPool cfg role w assigned_today wh role_candidates).filter
    (fun e => decide (whGet wh e.employee_id + durationHours w.start w.stop ≤ roleHardCap cfg role))

/-- The failure modes of greedy_schedule.  The first three are the
RuntimeError messages of the source; indexErr models the IndexError a
Python list/deque raises on a bad index; outOfFuel pads the fuelled loop
and is unreachable (each loop iteration either raises or fills a slot,
because the backtracking swap never succeeds; see
tryBacktrackGo_of_pool_empty below). -/
inductive SchedError where
  | noEligibleEmployees (day role : String)
  | insufficientStaff (day role : String)
  | coverageAfterFallback (day role : String)
  | indexErr
  | outOfFuel
deriving DecidableEq, Repr

/-- The mutable state of one (day, role) assignment loop, plus the
run-global weekly-hours ledger and accumulated assignment list. -/
structure RoleDayState where
  wh : List (Int × ℚ)
  assigned_today : List Int
  assignments : List Assignment
  buffer : List (Nat × Assignment)
  rr : List Int
  slots_assigned : Int
deriving Repr

/-- The per-(day, role) constants of the assignment loop. -/
structure RoleCtx where
  cfg : SchedulerConfig
  day : Date
  day_str : String
  day_type : String
  shift_type_label : Option String
  role : String
  needed : Int
  time_patterns : List Window
  shift_ids : List Int
  role_candidates : List Employee
  fairness_map : List (Int × ℚ)

/-- The backtracking scan (engine_baseline lines 212-255): walk the
buffered assignments most-recent-first; for each, build the alternate pool
from the not-yet-reverted state (the source filters with the same
eligible_mask closure before undoing anything), and on a nonempty
alternate pool perform the swap.  Returns .ok none when no swap was
found. -/
def tryBacktrackGo (ctx : RoleCtx) (w : Window) (st : RoleDayState) :
    List (Nat × Assignment) → Except SchedError (Option RoleDayState)
  | [] => .ok none
  | (idx, prev) :: rest =>
    let alt_pool0 := ctx.role_candidates.filter (fun e => !(e.employee_id == prev.emp_id))
    let alt_pool := alt_pool0.filter (eligible_mask ctx.cfg ctx.role w st.assigned_today st.wh)
    if alt_pool.isEmpty then tryBacktrackGo ctx w st rest
    else
      match argmaxBy (alt_score ctx.cfg ctx.role ctx.fairness_map) alt_pool with
      | none => .ok none
      | some best =>
        let prev_hours := durationHours prev.start_time prev.end_time
        let wh1 := whAdd st.wh prev.emp_id (-prev_hours)
        let at1 := st.assigned_today.erase prev.emp_id
        let slot_hours2 := durationHours w.start w.stop
        let wh2 := whAdd wh1 best.employee_id slot_hours2
        let at2 := setAdd at1 best.employee_id
        let newAssign : Assignment :=
          { shift_id := prev.shift_id, emp_id := best.employee_id, date := prev.date,
            start_time := prev.start_time, end_time := prev.end_time, role := ctx.role }
        if idx < st.assignments.length then
          if idx < st.buffer.length then
            .ok (some { wh := wh2, assigned_today := at2,
                        assignments := st.assignments.set idx newAssign,
                        buffer := st.buffer.set idx (idx, newAssign),
                        rr := st.rr, slots_assigned := st.slots_assigned })
          else .error .indexErr
        else .error .indexErr

/-- The slot window: time_patterns[slots_assigned] when in range, else the
default window (engine_baseline line 190). -/
def slotWindow (ctx : RoleCtx) (st : RoleDayState) : Window :=
  ctx.time_patterns.getD st.slots_assigned.toNat (defaultW ctx.cfg)

/-- The Assignment a normal slot commit emits (lines 310-318). -/
def slotAssign (ctx : RoleCtx) (st : RoleDayState) (current_shift_id : Int)
    (chosen : Employee) : Assignment :=
  { shift_id := current_shift_id, emp_id := chosen.employee_id, date := ctx.day,
    start_time := (slotWindow ctx st).start, end_time := (slotWindow ctx st).stop,
    role := ctx.role, shift_type := ctx.shift_type_label, day_type := some ctx.day_type }

/-- The state updates of a normal slot commit (lines 319-325). -/
def commitSlot (ctx : RoleCtx) (st : RoleDayState) (current_shift_id : Int)
    (rrRest : List Int) (chosen : Employee) : RoleDayState :=
  { wh := whAdd st.wh chosen.employee_id
      (durationHours (slotWindow ctx st).start (slotWindow ctx st).stop),
    assigned_today := setAdd st.assigned_today chosen.employee_id,
    assignments := st.assignments ++ [slotAssign ctx st current_shift_id chosen],
    buffer := st.buffer ++
      [((st.assignments ++ [slotAssign ctx st current_shift_id chosen]).length - 1,
        slotAssign ctx st current_shift_id chosen)],
    rr := rrRest,
    slots_assigned := st.slots_assigned + 1 }

/-- The while loop of greedy_schedule (lines 185-325), fuelled.  Each
iteration pops a shift id from the round robin (refilling it when empty),
resolves the slot window, and either commits the best-scoring candidate of
the strictly capped pool or enters the backtracking scan.  The fuel only
pads the swap-retry path, which never runs (the scan always fails; see
tryBacktrackGo_of_pool_empty); with needed+1 units a run never exhausts
it. -/
def assignSlots (ctx : RoleCtx) : Nat → RoleDayState → Except SchedError RoleDayState
  | 0, st => if st.slots_assigned < ctx.needed then .error .outOfFuel else .ok st
  | fuel + 1, st =>
    if st.slots_assigned < ctx.needed then
      match (if st.rr.isEmpty then ctx.shift_ids else st.rr) with
      | [] => .error .indexErr
      | current_shift_id :: rrRest =>
        if (slotPool ctx.cfg ctx.role (slotWindow ctx st) st.assigned_today st.wh
            ctx.role_candidates).isEmpty then
          match tryBacktrackGo ctx (slotWindow ctx st) { st with rr := rrRest }
              st.buffer.reverse with
          | .error e => .error e
          | .ok none => .error (.insufficientStaff ctx.day_str ctx.role)
          | .ok (some st1) => assignSlots ctx fuel st1
        else
          if (strictPool ctx.cfg ctx.role (slotWindow ctx st) st.assigned_today st.wh
              ctx.role_candidates).isEmpty then
            .error (.insufficientStaff ctx.day_str ctx.role)
          else
            match argmaxBy (score_row ctx.cfg ctx.role (slotWindow ctx st) st.wh ctx.fairness_map)
                (strictPool ctx.cfg ctx.role (slotWindow ctx st) st.assigned_today st.wh
                  ctx.role_candidates) with
            | none => .error (.insufficientStaff ctx.day_str ctx.role)
            | some chosen =>
              assignSlots ctx fuel (commitSlot ctx st current_shift_id rrRest chosen)
    else .ok st

/-- Time-window resolution per role and day type (engine_baseline lines
122-168), returning the slot patterns and the shift_type label. -/
def timePatternsFor (cfg : SchedulerConfig) (role : String) (is_busy : Bool) :
    List Window × Option String :=
  let role_windows := cfg.role_time_windows.lookup role
  if role == "BARISTA" || role == "WAITER" then
    if is_busy then
      match role_windows.bind (·.weekend_staggered) with
      | some (.several ws) =>
        if 2 ≤ ws.length then (ws.take 2, some "weekend_double")
        else ([defaultW cfg, defaultW cfg], some "weekend_double")
      | _ => ([defaultW cfg, defaultW cfg], some "weekend_double")
    else
      match role_windows.bind (·.weekday) with
      | some (.single w) => ([w], some "weekday_single")
      | _ => ([defaultW cfg], some "weekday_single")
  else if role == "SANDWICH" then
    if is_busy then
      match role_windows.bind (·.weekend) with
      | some (.several ws) =>
        if 2 ≤ ws.length then (ws.take 2, some "weekend_double")
        else ([⟨⟨5, 0⟩, ⟨13, 30⟩⟩, ⟨⟨6, 0⟩, ⟨13, 30⟩⟩], some "weekend_double")
      | _ => ([⟨⟨5, 0⟩, ⟨13, 30⟩⟩, ⟨⟨6, 0⟩, ⟨13, 30⟩⟩], some "weekend_double")
    else
      match role_windows.bind (·.weekday) with
      | some (.several (p :: _)) => ([p], some "weekday_single")
      | _ => ([⟨⟨5, 0⟩, ⟨12, 0⟩⟩], some "weekday_single")
  else
    ([defaultW cfg], some (if is_busy then "weekend_single" else "weekday_single"))

/-- Pattern replication to the needed slot count (lines 170-177). -/
def replicatePatterns (pats : List Window) (needed : Int) : List Window :=
  if pats.length = 1 ∧ 1 < needed then (List.replicate needed.toNat pats).flatten
  else if 2 ≤ pats.length ∧ (pats.length : Int) < needed then
    let reps := (needed.toNat + pats.length - 1) / pats.length
    ((List.replicate reps pats).flatten).take needed.toNat
  else pats

/-- The weekend-fallback block after the slot loop (lines 327-385): on a
busy day with unfilled slots and an enabled fallback policy, optionally
commit one extra assignment on the default window against the day's first
shift, then raise when even min_required is not reached.  fallbackAttempt
is the allow_single_full_shift branch (lines 333-378); its eligibility
filter is greedy_schedule.eligible_fb, the same predicate as eligible_mask
at the default window. -/
def fallbackAssign (ctx : RoleCtx) (best : Employee) : Assignment :=
  { shift_id := ctx.shift_ids.getD 0 0, emp_id := best.employee_id, date := ctx.day,
    start_time := (defaultW ctx.cfg).start, end_time := (defaultW ctx.cfg).stop,
    role := ctx.role, shift_type := some "weekend_fallback_single",
    day_type := some ctx.day_type }

def fallbackCommit (ctx : RoleCtx) (st : RoleDayState) (best : Employee) : RoleDayState :=
  { st with
    assignments := st.assignments ++ [fallbackAssign ctx best],
    wh := whAdd st.wh best.employee_id
      (durationHours (defaultW ctx.cfg).start (defaultW ctx.cfg).stop),
    assigned_today := setAdd st.assigned_today best.employee_id,
    slots_assigned := st.slots_assigned + 1 }

def fallbackAttempt (ctx : RoleCtx) (allow_single : Bool) (st : RoleDayState) :
    RoleDayState :=
  if allow_single = true ∧ st.slots_assigned < ctx.needed then
    if (ctx.role_candidates.filter
        (eligible_mask ctx.cfg ctx.role (defaultW ctx.cfg) st.assigned_today st.wh)).isEmpty then
      st
    else
      match argmaxBy (fb_score ctx.cfg ctx.role (defaultW ctx.cfg) st.wh ctx.fairness_map)
          (ctx.role_candidates.filter
            (eligible_mask ctx.cfg ctx.role (defaultW ctx.cfg) st.assigned_today st.wh)) with
      | none => st
      | some best => fallbackCommit ctx st best
  else st

def weekendFallback (ctx : RoleCtx) (is_busy : Bool) (st : RoleDayState) :
    Except SchedError RoleDayState :=
  if st.slots_assigned < ctx.needed ∧ is_busy = true ∧
      (((ctx.cfg.weekend_fallback.lookup ctx.role).getD {}).enabled).getD false = true then
    if (fallbackAttempt ctx
          ((((ctx.cfg.weekend_fallback.lookup ctx.role).getD {}).allow_single_full_shift).getD false)
          st).slots_assigned <
        (((ctx.cfg.weekend_fallback.lookup ctx.role).getD {}).min_required).getD 1 then
      .error (.coverageAfterFallback ctx.day_str ctx.role)
    else
      .ok (fallbackAttempt ctx
        ((((ctx.cfg.weekend_fallback.lookup ctx.role).getD {}).allow_single_full_shift).getD false)
        st)
  else .ok st

/-- The precomputed per-role cohort fairness penalties of a day (lines
93-100): for each role of the requirement map, the fairness_penalty of the
cohort's current weekly hours. -/
def fairnessByRole (cfg : SchedulerConfig) (employees : List Employee)
    (wh : List (Int × ℚ)) (req_map : List (String × Int)) :
    List (String × List (Int × ℚ)) :=
  req_map.map (fun p =>
    let cohort := employees.filter (fun e => toUpper e.primary_role == p.1)
    let series := cohort.map (fun e => (e.employee_id, whGet wh e.employee_id))
    (p.1, fairness_penalty series p.1 cfg.weights))

/-- The RoleCtx a requirement entry produces (window resolution,
replication, candidate filter, fairness-map lookup). -/
def mkRoleCtx (cfg : SchedulerConfig) (day : Date) (day_str : String) (is_busy : Bool)
    (day_type : String) (employees : List Employee) (shift_ids : List Int)
    (fairness_by_role : List (String × List (Int × ℚ))) (role : String) (needed : Int) :
    RoleCtx :=
  { cfg := cfg, day := day, day_str := day_str, day_type := day_type,
    shift_type_label := (timePatternsFor cfg role is_busy).2, role := role, needed := needed,
    time_patterns := replicatePatterns (timePatternsFor cfg role is_busy).1 needed,
    shift_ids := shift_ids,
    role_candidates := employees.filter (fun e => toUpper e.primary_role == role),
    fairness_map := (fairness_by_role.lookup role).getD [] }

/-- One (role, needed) entry of the day's requirement map (the body of the
role loop, lines 109-385). -/
def processRole (cfg : SchedulerConfig) (day : Date) (day_str : String) (is_busy : Bool)
    (day_type : String) (employees : List Employee) (shift_ids : List Int)
    (fairness_by_role : List (String × List (Int × ℚ))) (role : String) (needed : Int)
    (wh : List (Int × ℚ)) (assigned_today : List Int) (assignments : List Assignment) :
    Except SchedError (List (Int × ℚ) × List Int × List Assignment) :=
  if needed = 0 then .ok (wh, assigned_today, assignments)
  else
    if (employees.filter (fun e => toUpper e.primary_role == role)).isEmpty then
      .error (.noEligibleEmployees day_str role)
    else
      match assignSlots
          (mkRoleCtx cfg day day_str is_busy day_type employees shift_ids fairness_by_role
            role needed) (needed.toNat + 1)
          { wh := wh, assigned_today := assigned_today, assignments := assignments,
            buffer := [], rr := shift_ids, slots_assigned := 0 } with
      | .error e => .error e
      | .ok st =>
        match weekendFallback
            (mkRoleCtx cfg day day_str is_busy day_type employees shift_ids fairness_by_role
              role needed) is_busy st with
        | .error e => .error e
        | .ok st1 => .ok (st1.wh, st1.assigned_today, st1.assignments)

/-- Fold of processRole over the day's requirement map in dict order. -/
def processRoles (cfg : SchedulerConfig) (day : Date) (day_str : String) (is_busy : Bool)
    (day_type : String) (employees : List Employee) (shift_ids : List Int)
    (fairness_by_role : List (String × List (Int × ℚ))) :
    List (String × Int) → (List (Int × ℚ) × List Int × List Assignment) →
    Except SchedError (List (Int × ℚ) × List Int × List Assignment)
  | [], acc => .ok acc
  | (role, needed) :: rest, (wh, assigned_today, assignments) =>
    match processRole cfg day day_str is_busy day_type employees shift_ids fairness_by_role
      role needed wh assigned_today assignments with
    | .error e => .error e
    | .ok acc' => processRoles cfg day day_str is_busy day_type employees shift_ids
        fairness_by_role rest acc'

/-- One day of the outer loop (lines 79-385).  day.iso is the day_str of
the source, contains on busy_days the is_busy_day test. -/
def processDay (cfg : SchedulerConfig) (employees : List Employee) (shifts : List Shift)
    (day : Date) (wh : List (Int × ℚ)) (assignments : List Assignment) :
    Except SchedError (List (Int × ℚ) × List Assignment) :=
  if (shifts.filter (fun s => s.date == day)).isEmpty then .ok (wh, assignments)
  else
    if ((shifts.filter (fun s => s.date == day)).map (·.shift_id)).isEmpty then
      .ok (wh, assignments)
    else
      match processRoles cfg day day.iso (cfg.busy_days.contains day.dayName)
          (if cfg.busy_days.contains day.dayName then "weekend" else "weekday") employees
          ((shifts.filter (fun s => s.date == day)).map (·.shift_id))
          (fairnessByRole cfg employees wh (build_requirements_for_day day cfg))
          (build_requirements_for_day day cfg) (wh, [], assignments) with
      | .error e => .error e
      | .ok (wh', _, assignments') => .ok (wh', assignments')

/-- Fold of processDay over the day list. -/
def processDays (cfg : SchedulerConfig) (employees : List Employee) (shifts : List Shift) :
    List Date → (List (Int × ℚ) × List Assignment) →
    Except SchedError (List (Int × ℚ) × List Assignment)
  | [], acc => .ok acc
  | day :: rest, (wh, assignments) =>
    match processDay cfg employees shifts day wh assignments with
    | .error e => .error e
    | .ok acc' => processDays cfg employees shifts rest acc'

/-- Comparison key of shifts_df.sort_values(["date", "shift_id"]): by date
(ISO strings order exactly as the dates do) then shift id. -/
def shiftLe (a b : Shift) : Bool :=
  decide (a.date.iso < b.date.iso)
    || (a.date.iso == b.date.iso && decide (a.shift_id ≤ b.shift_id))

/-- Insertion into a shiftLe-sorted list. -/
def insertShift (x : Shift) : List Shift → List Shift
  | [] => [x]
  | y :: ys => if shiftLe x y then x :: y :: ys else y :: insertShift x ys

/-- Sort of the shifts frame by (date, shift_id); among rows with equal
keys the residual order is irrelevant to every consumer. -/
def sortShifts (l : List Shift) : List Shift := l.foldr insertShift []

/-- Series.unique() worker: keep elements not seen before, in order. -/
def dedupFirstAux (seen : List Date) : List Date → List Date
  | [] => []
  | d :: ds =>
    if seen.contains d then dedupFirstAux seen ds
    else d :: dedupFirstAux (d :: seen) ds

/-- Series.unique() on the sorted date column: first occurrences in
order. -/
def dedupFirst (l : List Date) : List Date := dedupFirstAux [] l

/-- The day list: unique dates of the sorted shifts, optionally busy days
first.  sorted(days, key=(not busy, date)) on an already date-sorted list
is the busy days in date order followed by the rest in date order, which
is the filter split below. -/
def scheduleDays (cfg : SchedulerConfig) (shifts : List Shift) : List Date :=
  if cfg.schedule_busy_days_first then
    (dedupFirst ((sortShifts shifts).map (·.date))).filter
        (fun d => cfg.busy_days.contains d.dayName)
      ++ (dedupFirst ((sortShifts shifts).map (·.date))).filter
        (fun d => !(cfg.busy_days.contains d.dayName))
  else dedupFirst ((sortShifts shifts).map (·.date))

/-- engine_baseline.greedy_schedule.  Returns the assignment rows of the
output DataFrame, or the error the run raises. -/
def greedy_schedule (employees : List Employee) (shifts : List Shift)
    (cfg : SchedulerConfig) : Except SchedError (List Assignment) :=
  match processDays cfg employees (sortShifts shifts) (scheduleDays cfg shifts) ([], []) with
  | .error e => .error e
  | .ok (_, assignments) => .ok assignments

/-- The ValueError / NameError outcomes of validator.validate_assignments,
in the order the source raises them. -/
inductive ValErr where
  | unknownEmployeeIds
  | unknownShiftIds
  | startsBeforeOpen
  | endsAfterClose
  | notOnHour
  | sandwichEndsAfterClose
  | overlap
  | nameError
deriving DecidableEq, Repr

/-- The merge of assignments with employee primary roles (merge on emp_id,
how="left"): does some joined (assignment, employee) pair satisfy p?
Referential integrity has already guaranteed every assignment at least one
partner. -/
def mergedAny (employees : List Employee) (assignments : List Assignment)
    (p : Employee → Assignment → Bool) : Bool :=
  assignments.any (fun a => employees.any (fun e => e.employee_id == a.emp_id && p e a))

/-- Sort key of has_overlap's sort_values(["emp_id", "date", "start_time"]). -/
def assignLe (a b : Assignment) : Bool :=
  decide (a.emp_id < b.emp_id)
    || (a.emp_id == b.emp_id
      && (decide (a.date.iso < b.date.iso)
        || (a.date.iso == b.date.iso
          && decide (HM.toMinutes a.start_time ≤ HM.toMinutes b.start_time))))

/-- Insertion into an assignLe-sorted list. -/
def insertAssign (x : Assignment) : List Assignment → List Assignment
  | [] => [x]
  | y :: ys => if assignLe x y then x :: y :: ys else y :: insertAssign x ys

/-- Sort by (emp_id, date, start_time). -/
def sortAssignments (l : List Assignment) : List Assignment := l.foldr insertAssign []

/-- The consecutive-row scan of constraints.has_overlap: within a
(emp_id, date) group in start order, flag a row starting before the
previous row's end. -/
def scanOverlap : List Assignment → Bool
  | [] => false
  | [_] => false
  | a :: b :: rest =>
    (a.emp_id == b.emp_id && a.date == b.date
        && decide (HM.toMinutes b.start_time < HM.toMinutes a.end_time))
      || scanOverlap (b :: rest)

/-- constraints.has_overlap. -/
def has_overlap (assignments : List Assignment) : Bool :=
  scanOverlap (sortAssignments assignments)

/-- validator.validate_assignments.  The checks run in source order:
referential integrity, the hardcoded café-hours window (non-SANDWICH rows
must start at hour 7 or later, end at hour 15 or earlier, and end on the
hour; SANDWICH rows must end by hour 15), then the per-day overlap scan.
The weekly-cap section that follows begins with "if per_role_caps:"
(validator.py line 72), and per_role_caps — like global_hard_cap on line
83 — is a free name that is neither a parameter nor defined in the module,
so reaching it raises NameError; the weekly-cap and coverage checks after
it (lines 72-98) are unreachable, which is why the requirements argument
is never consulted. -/
def validate_assignments (employees : List Employee) (shifts : List Shift)
    (assignments : List Assignment) (start_hm end_hm : HM)
    (requirements_by_date : Option (List (String × List (String × Int)))) :
    Except ValErr Unit :=
  if !(assignments.all (fun a => employees.any (fun e => e.employee_id == a.emp_id))) then
    .error .unknownEmployeeIds
  else if !(assignments.all (fun a => shifts.any (fun s => s.shift_id == a.shift_id))) then
    .error .unknownShiftIds
  else if mergedAny employees assignments
      (fun e a => !(toUpper e.primary_role == "SANDWICH") && decide (a.start_time.hour < 7)) then
    .error .startsBeforeOpen
  else if mergedAny employees assignments
      (fun e a => !(toUpper e.primary_role == "SANDWICH") && decide (15 < a.end_time.hour)) then
    .error .endsAfterClose
  else if mergedAny employees assignments
      (fun e a => !(toUpper e.primary_role == "SANDWICH") && !(a.end_time.minute == 0)) then
    .error .notOnHour
  else if mergedAny employees assignments
      (fun e a => (toUpper e.primary_role == "SANDWICH") && decide (15 < a.end_time.hour)) then
    .error .sandwichEndsAfterClose
  else if has_overlap assignments then
    .error .overlap
  else
    .error .nameError

/-- The early checks of validate_assignments (everything before the
weekly-cap section). -/
def earlyChecksPass (employees : List Employee) (shifts : List Shift)
    (assignments : List Assignment) : Bool :=
  assignments.all (fun a => employees.any (fun e => e.employee_id == a.emp_id))
    && assignments.all (fun a => shifts.any (fun s => s.shift_id == a.shift_id))
    && !(mergedAny employees assignments
      (fun e a => !(toUpper e.primary_role == "SANDWICH") && decide (a.start_time.hour < 7)))
    && !(mergedAny employees assignments
      (fun e a => !(toUpper e.primary_role == "SANDWICH") && decide (15 < a.end_time.hour)))
    && !(mergedAny employees assignments
      (fun e a => !(toUpper e.primary_role == "SANDWICH") && !(a.end_time.minute == 0)))
    && !(mergedAny employees assignments
      (fun e a => (toUpper e.primary_role == "SANDWICH") && decide (15 < a.end_time.hour)))
    && !(has_overlap assignments)

/-- Assignment count of a (date, role) pair, as ai/validator.py
validate_cp_sat_schedule counts it (the requirement role is uppercased
before the count lookup). -/
def countRoleOnDate (assignments : List Assignment) (d : Date) (role : String) : Int :=
  ((assignments.filter (fun a => a.date == d && a.role == role)).length : Int)

/-- The coverage section of ai/validator.validate_cp_sat_schedule (step 2):
for every date that has shifts and every (role, required) entry of the
day's requirement map, an error entry (date, ROLE) when the assignment
count differs from the requirement.  The weekend_fallback config is never
consulted. -/
def coverageMismatches (assignments : List Assignment) (shifts : List Shift)
    (cfg : SchedulerConfig) : List (String × String) :=
  let dates := dedupFirst (shifts.map (·.date))
  dates.foldr (fun d acc =>
    ((build_requirements_for_day d cfg).filter
        (fun p => !(countRoleOnDate assignments d (toUpper p.1) == p.2))).map
      (fun p => (d.iso, toUpper p.1)) ++ acc) []

/-- Number of assignments of employee e on date d in an output. -/
def empDayCount (asg : List Assignment) (e : Int) (d : Date) : Nat :=
  (asg.filter (fun a => a.emp_id == e && a.date == d)).length

/-- Total actual duration (end_time minus start_time) of employee e's
assignments in an output. -/
def sumDur (asg : List Assignment) (e : Int) : ℚ :=
  ((asg.filter (fun a => a.emp_id == e)).map
    (fun a => durationHours a.start_time a.end_time)).sum

/-- Modelled from the spec's words, for comparison with the code (claim
C3): penalty(emp) = max(0, hours(emp) − min(cohortHours)) × fairnessFactor. -/
def claimedCohortPenalty (current_hours : ℚ) (cohort_vals : List ℚ) (factor : ℚ) : ℚ :=
  max 0 (current_hours - listMin cohort_vals) * factor

/-- Modelled from the spec's words, for comparison with the code (claim
C8): the target-band deviation formula
max(0, targetMin − h)·belowRate + max(0, h − targetMax)·aboveRate. -/
def bandPenaltySpec (h tmin tmax rb ra : ℚ) : ℚ :=
  max 0 (tmin - h) * rb + max 0 (h - tmax) * ra

/-- Modelled from the spec's words, for comparison with the code (claim
C6): requirement resolution whose busy-day overlay fires exactly when the
date's weekday is in the configured busy-day set. -/
def claimedRequirementsForDay (date : Date) (cfg : SchedulerConfig) :
    List (String × Int) :=
  match cfg.overrides.lookup date.iso with
  | none =>
    if cfg.busy_days.contains date.dayName then
      cfg.weekend_requirements.foldl (fun m p => setKV m p.1 p.2) cfg.default_requirements
    else cfg.default_requirements
  | some ov =>
    ov.foldl (fun m p => setKV m p.1 p.2)
      (if cfg.busy_days.contains date.dayName then
        cfg.weekend_requirements.foldl (fun m p => setKV m p.1 p.2) cfg.default_requirements
      else cfg.default_requirements)

/-- The value the last binding of k in an update list leaves behind (a
sequence of dict assignments is full per-key replacement, last one
winning; with unique keys this is the entry's value). -/
def lastVal (l : List (String × Int)) (k : String) : Option Int :=
  l.foldl (fun acc p => if p.1 = k then some p.2 else acc) none

/-- First-some choice on options. -/
def optOr (a b : Option Int) : Option Int :=
  match a with
  | some v => some v
  | none => b

theorem filter_sub_empty {α : Type} {p q : α → Bool} {l : List α}
    (h : l.filter p = []) : (l.filter q).filter p = [] := by
  rw [List.filter_filter]
  rw [List.filter_eq_nil_iff] at h ⊢
  intro a ha hpa
  rw [Bool.and_eq_true] at hpa
  exact h a ha hpa.1

theorem argmax_foldl_mem {α : Type} (f : α → ℚ) :
    ∀ (xs : List α) (x : α),
      xs.foldl (fun best y => if f y > f best then y else best) x ∈ x :: xs := by
  intro xs
  induction xs with
  | nil => intro x; simp
  | cons y ys ih =>
    intro x
    simp only [List.foldl_cons]
    have h := ih (if f y > f x then y else x)
    rcases List.mem_cons.mp h with h' | h'
    · rw [h']
      by_cases hc : f y > f x
      · simp only [if_pos hc]
        exact List.mem_cons_of_mem _ (List.mem_cons_self _ _)
      · simp only [if_neg hc]
        exact List.mem_cons_self _ _
    · exact List.mem_cons_of_mem _ (List.mem_cons_of_mem _ h')

theorem argmaxBy_mem {α : Type} {f : α → ℚ} {l : List α} {a : α}
    (h : argmaxBy f l = some a) : a ∈ l := by
  cases l with
  | nil => simp [argmaxBy] at h
  | cons x xs =>
    simp only [argmaxBy, Option.some.injEq] at h
    rw [← h]
    exact argmax_foldl_mem f xs x

theorem argmax_foldl_ge {α : Type} (f : α → ℚ) :
    ∀ (xs : List α) (x : α) (b : α), b ∈ x :: xs →
      f b ≤ f (xs.foldl (fun best y => if f y > f best then y else best) x) := by
  intro xs
  induction xs with
  | nil =>
    intro x b hb
    simp only [List.foldl_nil]
    rcases List.mem_cons.mp hb with h | h
    · exact le_of_eq (congrArg f h)
    · simp at h
  | cons y ys ih =>
    intro x b hb
    simp only [List.foldl_cons]
    have hstep : f x ≤ f (if f y > f x then y else x) ∧ f y ≤ f (if f y > f x then y else x) := by
      by_cases hc : f y > f x
      · simp only [if_pos hc]
        exact ⟨le_of_lt hc, le_refl _⟩
      · simp only [if_neg hc]
        exact ⟨le_refl _, le_of_not_lt hc⟩
    have hhead := ih (if f y > f x then y else x) (if f y > f x then y else x)
      (List.mem_cons_self _ _)
    rcases List.mem_cons.mp hb with h | h
    · exact le_trans (h ▸ hstep.1) hhead
    · rcases List.mem_cons.mp h with h' | h'
      · exact le_trans (h' ▸ hstep.2) hhead
      · exact ih _ b (List.mem_cons_of_mem _ h')

theorem argmaxBy_ge {α : Type} {f : α → ℚ} {l : List α} {a : α}
    (h : argmaxBy f l = some a) : ∀ b ∈ l, f b ≤ f a := by
  cases l with
  | nil => simp [argmaxBy] at h
  | cons x xs =>
    simp only [argmaxBy, Option.some.injEq] at h
    intro b hb
    rw [← h]
    exact argmax_foldl_ge f xs x b hb

theorem lookup_map_update (wh : List (Int × ℚ)) (e x : Int) (d : ℚ) :
    (wh.map (fun p => if p.1 = e then (p.1, p.2 + d) else p)).lookup x =
      (wh.lookup x).map (fun v => if x = e then v + d else v) := by
  induction wh with
  | nil => rfl
  | cons hd tl ih =>
    obtain ⟨k, v⟩ := hd
    simp only [List.map_cons]
    by_cases hke : k = e
    · rw [if_pos hke]
      cases hxk : (x == k) with
      | true =>
        have hx : x = k := by simpa using hxk
        simp only [List.lookup, hxk, Option.map_some']
        rw [if_pos (hx.trans hke)]
      | false =>
        simp only [List.lookup, hxk]
        exact ih
    · rw [if_neg hke]
      cases hxk : (x == k) with
      | true =>
        have hx : x = k := by simpa using hxk
        simp only [List.lookup, hxk, Option.map_some']
        rw [if_neg (by rw [hx]; exact hke)]
      | false =>
        simp only [List.lookup, hxk]
        exact ih

theorem lookup_append_right {α β : Type} [BEq α] [LawfulBEq α] (l₁ l₂ : List (α × β)) (x : α)
    (h : l₁.lookup x = none) : (l₁ ++ l₂).lookup x = l₂.lookup x := by
  induction l₁ with
  | nil => rfl
  | cons hd tl ih =>
    obtain ⟨k, v⟩ := hd
    cases hxk : (x == k) with
    | true =>
      simp only [List.lookup, hxk] at h
      exact absurd h (by simp)
    | false =>
      simp only [List.cons_append, List.lookup, hxk] at h ⊢
      exact ih h

theorem lookup_append_left {α β : Type} [BEq α] [LawfulBEq α] (l₁ l₂ : List (α × β)) (x : α)
    (v : β) (h : l₁.lookup x = some v) : (l₁ ++ l₂).lookup x = some v := by
  induction l₁ with
  | nil => exact absurd h (by simp [List.lookup])
  | cons hd tl ih =>
    obtain ⟨k, w⟩ := hd
    cases hxk : (x == k) with
    | true =>
      simp only [List.lookup, hxk] at h
      simp only [List.cons_append, List.lookup, hxk]
      exact h
    | false =>
      simp only [List.cons_append, List.lookup, hxk] at h ⊢
      exact ih h

theorem whGet_whAdd (wh : List (Int × ℚ)) (e x : Int) (d : ℚ) :
    whGet (whAdd wh e d) x = whGet wh x + (if x = e then d else 0) := by
  unfold whAdd whGet
  by_cases hs : (wh.lookup e).isSome
  · rw [if_pos hs, lookup_map_update]
    by_cases hxe : x = e
    · subst hxe
      obtain ⟨v, hv⟩ := Option.isSome_iff_exists.mp hs
      rw [hv]
      simp
    · cases hl : wh.lookup x with
      | none => simp [hxe]
      | some v => simp [hxe]
  · rw [if_neg hs]
    by_cases hxe : x = e
    · subst hxe
      have hnone : wh.lookup x = none := Option.not_isSome_iff_eq_none.mp hs
      rw [lookup_append_right _ _ _ hnone, hnone]
      simp [List.lookup]
    · cases hl : wh.lookup x with
      | none =>
        rw [lookup_append_right _ _ _ hl]
        have : ((x == e)) = false := by simp [hxe]
        simp [List.lookup, this, hxe]
      | some v =>
        rw [lookup_append_left _ _ _ _ hl]
        simp [hxe]

theorem sumDur_append_single (l : List Assignment) (a : Assignment) (e : Int) :
    sumDur (l ++ [a]) e =
      sumDur l e + (if a.emp_id = e then durationHours a.start_time a.end_time else 0) := by
  unfold sumDur
  rw [List.filter_append]
  by_cases h : a.emp_id = e
  · simp [h]
  · simp [h]

theorem empDayCount_append_single (l : List Assignment) (a : Assignment) (e : Int) (d : Date) :
    empDayCount (l ++ [a]) e d =
      empDayCount l e d + (if a.emp_id = e ∧ a.date = d then 1 else 0) := by
  unfold empDayCount
  rw [List.filter_append]
  by_cases h1 : a.emp_id = e
  · by_cases h2 : a.date = d
    · simp [h1, h2]
    · simp [h1, h2]
  · simp [h1]

theorem mem_setAdd (s : List Int) (e x : Int) : x ∈ setAdd s e ↔ x ∈ s ∨ x = e := by
  unfold setAdd
  by_cases h : s.contains e
  · rw [if_pos h]
    constructor
    · exact Or.inl
    · rintro (hx | hx)
      · exact hx
      · subst hx; exact List.mem_of_elem_eq_true h
  · rw [if_neg h]
    simp [List.mem_append]

theorem eligible_mask_facts {cfg : SchedulerConfig} {role : String} {w : Window}
    {tdy : List Int} {wh : List (Int × ℚ)} {e : Employee}
    (h : eligible_mask cfg role w tdy wh e = true) :
    e.employee_id ∉ tdy ∧
      whGet wh e.employee_id + durationHours w.start w.stop ≤ roleHardCap cfg role ∧
      (∀ g, cfg.global_hard_cap = some g →
        whGet wh e.employee_id + durationHours w.start w.stop ≤ g) ∧
      is_role_eligible e.primary_role role = true := by
  unfold eligible_mask at h
  by_cases hc : tdy.contains e.employee_id
  · rw [if_pos hc] at h; exact absurd h (by simp)
  · rw [if_neg hc] at h
    have hmem : e.employee_id ∉ tdy := fun hm => hc (List.elem_eq_true_of_mem hm)
    by_cases hcap : whGet wh e.employee_id + durationHours w.start w.stop > roleHardCap cfg role
    · rw [if_pos hcap] at h; exact absurd h (by simp)
    · rw [if_neg hcap] at h
      refine ⟨hmem, le_of_not_lt hcap, ?_, ?_⟩
      · intro g hg
        rw [hg] at h
        have h' : (if whGet wh e.employee_id + durationHours w.start w.stop > g then false
            else is_role_eligible e.primary_role role) = true := h
        by_cases hgc : whGet wh e.employee_id + durationHours w.start w.stop > g
        · rw [if_pos hgc] at h'; exact absurd h' (by simp)
        · exact le_of_not_lt hgc
      · cases hgl : cfg.global_hard_cap with
        | none =>
          rw [hgl] at h
          exact h
        | some g =>
          rw [hgl] at h
          have h' : (if whGet wh e.employee_id + durationHours w.start w.stop > g then false
              else is_role_eligible e.primary_role role) = true := h
          by_cases hgc : whGet wh e.employee_id + durationHours w.start w.stop > g
          · rw [if_pos hgc] at h'; exact absurd h' (by simp)
          · rw [if_neg hgc] at h'; exact h'

theorem exists_of_empDayCount_pos {asg : List Assignment} {e : Int} {d : Date}
    (h : 0 < empDayCount asg e d) : ∃ b ∈ asg, b.emp_id = e ∧ b.date = d := by
  unfold empDayCount at h
  have hne : asg.filter (fun a => a.emp_id == e && a.date == d) ≠ [] := by
    intro hn
    rw [hn] at h
    simp at h
  obtain ⟨b, hb⟩ := List.exists_mem_of_ne_nil _ hne
  have hb' := List.mem_filter.mp hb
  refine ⟨b, hb'.1, ?_, ?_⟩
  · have := hb'.2
    rw [Bool.and_eq_true] at this
    exact beq_iff_eq.mp this.1
  · have := hb'.2
    rw [Bool.and_eq_true] at this
    exact beq_iff_eq.mp this.2

/-- The invariant carried through one day of the engine: per-(employee,
date) multiplicity at most one, the assigned_today set covers the day's
assignments, dates of assignments are the current or an already processed
day, the ledger equals the actual per-employee durations, every assignment
belongs to an employee record whose primary role (uppercased) is the
assignment's role, and every assigned employee's total stays within the
hard cap of their assignments' role. -/
structure EngineInv (cfg : SchedulerConfig) (employees : List Employee) (done : List Date)
    (day : Date) (wh : List (Int × ℚ)) (tdy : List Int) (asg : List Assignment) : Prop where
  count : ∀ e d, empDayCount asg e d ≤ 1
  today : ∀ a ∈ asg, a.date = day → a.emp_id ∈ tdy
  dates : ∀ a ∈ asg, a.date = day ∨ a.date ∈ done
  ledger : ∀ e, whGet wh e = sumDur asg e
  roleOk : ∀ a ∈ asg, ∃ emp, emp ∈ employees ∧ emp.employee_id = a.emp_id ∧
    toUpper emp.primary_role = a.role
  capOk : (employees.map (·.employee_id)).Nodup →
    ∀ a ∈ asg, sumDur asg a.emp_id ≤ roleHardCap cfg a.role

theorem EngineInv.commit {cfg : SchedulerConfig} {employees : List Employee}
    {done : List Date} {day : Date} {wh : List (Int × ℚ)} {tdy : List Int}
    {asg : List Assignment} (hinv : EngineInv cfg employees done day wh tdy asg)
    {emp : Employee} {a : Assignment}
    (hmem : emp ∈ employees) (hid : emp.employee_id = a.emp_id)
    (hrole : toUpper emp.primary_role = a.role)
    (hdate : a.date = day)
    (hnt : a.emp_id ∉ tdy)
    (hcap : whGet wh a.emp_id + durationHours a.start_time a.end_time ≤
      roleHardCap cfg a.role) :
    EngineInv cfg employees done day
      (whAdd wh a.emp_id (durationHours a.start_time a.end_time))
      (setAdd tdy a.emp_id) (asg ++ [a]) := by
  have hledcap : sumDur asg a.emp_id + durationHours a.start_time a.end_time ≤
      roleHardCap cfg a.role := by
    rw [← hinv.ledger a.emp_id]
    exact hcap
  refine ⟨?_, ?_, ?_, ?_, ?_, ?_⟩
  · intro e d
    rw [empDayCount_append_single]
    by_cases hc : a.emp_id = e ∧ a.date = d
    · rw [if_pos hc]
      have hzero : empDayCount asg e d = 0 := by
        by_contra hne
        obtain ⟨b, hb, hbe, hbd⟩ := exists_of_empDayCount_pos (Nat.pos_of_ne_zero hne)
        have hbday : b.date = day := by rw [hbd, ← hc.2, hdate]
        have := hinv.today b hb hbday
        rw [hbe, ← hc.1] at this
        exact hnt this
      omega
    · rw [if_neg hc]
      have := hinv.count e d
      omega
  · intro b hb hbd
    rcases List.mem_append.mp hb with hb' | hb'
    · exact (mem_setAdd _ _ _).mpr (Or.inl (hinv.today b hb' hbd))
    · have : b = a := by simpa using hb'
      subst this
      exact (mem_setAdd _ _ _).mpr (Or.inr rfl)
  · intro b hb
    rcases List.mem_append.mp hb with hb' | hb'
    · exact hinv.dates b hb'
    · have : b = a := by simpa using hb'
      subst this
      exact Or.inl hdate
  · intro e
    rw [whGet_whAdd, sumDur_append_single, hinv.ledger e]
    by_cases he : e = a.emp_id
    · subst he
      simp
    · rw [if_neg he, if_neg (fun h => he h.symm)]
  · intro b hb
    rcases List.mem_append.mp hb with hb' | hb'
    · exact hinv.roleOk b hb'
    · have : b = a := by simpa using hb'
      subst this
      exact ⟨emp, hmem, hid, hrole⟩
  · intro hnd b hb
    rw [sumDur_append_single]
    rcases List.mem_append.mp hb with hb' | hb'
    · by_cases he : a.emp_id = b.emp_id
      · have hrb : b.role = a.role := by
          obtain ⟨emp', hm', hid', hr'⟩ := hinv.roleOk b hb'
          have : emp' = emp := List.inj_on_of_nodup_map hnd hm' hmem (by rw [hid', hid, he])
          rw [← hr', this, hrole]
        rw [if_pos he, hrb, ← he]
        exact hledcap
      · rw [if_neg he]
        simpa using hinv.capOk hnd b hb'
    · have : b = a := by simpa using hb'
      subst this
      rw [if_pos rfl]
      exact hledcap

theorem tryBacktrackGo_of_pool_empty (ctx : RoleCtx) (w : Window) (st : RoleDayState)
    (h : slotPool ctx.cfg ctx.role w st.assigned_today st.wh ctx.role_candidates = []) :
    ∀ scan, tryBacktrackGo ctx w st scan = .ok none := by
  intro scan
  induction scan with
  | nil => rfl
  | cons hd rest ih =>
    obtain ⟨idx, prev⟩ := hd
    have halt : (ctx.role_candidates.filter (fun e => !(e.employee_id == prev.emp_id))).filter
        (eligible_mask ctx.cfg ctx.role w st.assigned_today st.wh) = [] :=
      filter_sub_empty (by simpa [slotPool] using h)
    simp only [tryBacktrackGo]
    rw [halt]
    simpa using ih

theorem strictPool_facts {cfg : SchedulerConfig} {role : String} {w : Window}
    {tdy : List Int} {wh : List (Int × ℚ)} {cands : List Employee} {e : Employee}
    (h : e ∈ strictPool cfg role w tdy wh cands) :
    e ∈ cands ∧ eligible_mask cfg role w tdy wh e = true := by
  have h1 := List.mem_filter.mp h
  have h2 := List.mem_filter.mp h1.1
  exact ⟨h2.1, h2.2⟩

theorem assignSlots_inv {employees : List Employee} {done : List Date} (ctx : RoleCtx)
    (hcand : ∀ e ∈ ctx.role_candidates, e ∈ employees ∧ toUpper e.primary_role = ctx.role) :
    ∀ (fuel : Nat) (st st' : RoleDayState),
      EngineInv ctx.cfg employees done ctx.day st.wh st.assigned_today st.assignments →
      assignSlots ctx fuel st = .ok st' →
      EngineInv ctx.cfg employees done ctx.day st'.wh st'.assigned_today st'.assignments := by
  intro fuel
  induction fuel with
  | zero =>
    intro st st' hinv h
    unfold assignSlots at h
    split at h
    · exact absurd h (by simp)
    · simp only [Except.ok.injEq] at h
      subst h
      exact hinv
  | succ fuel ih =>
    intro st st' hinv h
    unfold assignSlots at h
    split at h
    case isFalse =>
      simp only [Except.ok.injEq] at h
      subst h
      exact hinv
    case isTrue hlt =>
      split at h
      · exact absurd h (by simp)
      case h_2 current_shift_id rrRest heqrr =>
        split at h
        case isTrue hpoolempty =>
          split at h
          · exact absurd h (by simp)
          · exact absurd h (by simp)
          case h_3 st1 heqbt =>
            have hpool : slotPool ctx.cfg ctx.role (slotWindow ctx st) st.assigned_today st.wh
                ctx.role_candidates = [] := by
              simpa using hpoolempty
            have := tryBacktrackGo_of_pool_empty ctx (slotWindow ctx st)
              { st with rr := rrRest } hpool st.buffer.reverse
            rw [this] at heqbt
            exact absurd heqbt (by simp)
        case isFalse hpoolne =>
          split at h
          case isTrue => exact absurd h (by simp)
          case isFalse hpool2ne =>
            split at h
            · exact absurd h (by simp)
            case h_2 chosen heqmax =>
              have hmem2 := argmaxBy_mem heqmax
              obtain ⟨hmemc, helig⟩ := strictPool_facts hmem2
              have hfacts := eligible_mask_facts helig
              obtain ⟨hememp, hrole⟩ := hcand chosen hmemc
              have hcommit : EngineInv ctx.cfg employees done ctx.day
                  (whAdd st.wh chosen.employee_id
                    (durationHours (slotWindow ctx st).start (slotWindow ctx st).stop))
                  (setAdd st.assigned_today chosen.employee_id)
                  (st.assignments ++ [slotAssign ctx st current_shift_id chosen]) :=
                @EngineInv.commit ctx.cfg employees done ctx.day st.wh st.assigned_today
                  st.assignments hinv chosen (slotAssign ctx st current_shift_id chosen)
                  hememp rfl hrole rfl hfacts.1 hfacts.2.1
              exact ih (commitSlot ctx st current_shift_id rrRest chosen) st' hcommit h

theorem fallbackAttempt_inv {employees : List Employee} {done : List Date} (ctx : RoleCtx)
    (hcand : ∀ e ∈ ctx.role_candidates, e ∈ employees ∧ toUpper e.primary_role = ctx.role)
    (allow_single : Bool) (st : RoleDayState)
    (hinv : EngineInv ctx.cfg employees done ctx.day st.wh st.assigned_today st.assignments) :
    EngineInv ctx.cfg employees done ctx.day
      (fallbackAttempt ctx allow_single st).wh
      (fallbackAttempt ctx allow_single st).assigned_today
      (fallbackAttempt ctx allow_single st).assignments := by
  unfold fallbackAttempt
  split
  case isFalse => exact hinv
  case isTrue =>
    split
    case isTrue => exact hinv
    case isFalse =>
      split
      case h_1 => exact hinv
      case h_2 best heqmax =>
        have hmemf := argmaxBy_mem heqmax
        have hmf := List.mem_filter.mp hmemf
        have hfacts := eligible_mask_facts hmf.2
        obtain ⟨hememp, hrole⟩ := hcand best hmf.1
        exact @EngineInv.commit ctx.cfg employees done ctx.day st.wh st.assigned_today
          st.assignments hinv best (fallbackAssign ctx best)
          hememp rfl hrole rfl hfacts.1 hfacts.2.1

theorem weekendFallback_inv {employees : List Employee} {done : List Date} (ctx : RoleCtx)
    (is_busy : Bool)
    (hcand : ∀ e ∈ ctx.role_candidates, e ∈ employees ∧ toUpper e.primary_role = ctx.role)
    (st st' : RoleDayState)
    (hinv : EngineInv ctx.cfg employees done ctx.day st.wh st.assigned_today st.assignments)
    (h : weekendFallback ctx is_busy st = .ok st') :
    EngineInv ctx.cfg employees done ctx.day st'.wh st'.assigned_today st'.assignments := by
  unfold weekendFallback at h
  split at h
  case isTrue =>
    split at h
    case isTrue => exact absurd h (by simp)
    case isFalse =>
      simp only [Except.ok.injEq] at h
      subst h
      exact fallbackAttempt_inv ctx hcand _ st hinv
  case isFalse =>
    simp only [Except.ok.injEq] at h
    subst h
    exact hinv

theorem processRole_inv {employees : List Employee} {done : List Date}
    (cfg : SchedulerConfig) (day : Date) (day_str : String) (is_busy : Bool)
    (day_type : String) (shift_ids : List Int)
    (fairness_by_role : List (String × List (Int × ℚ))) (role : String) (needed : Int)
    (wh : List (Int × ℚ)) (tdy : List Int) (asg : List Assignment)
    (res : List (Int × ℚ) × List Int × List Assignment)
    (hinv : EngineInv cfg employees done day wh tdy asg)
    (h : processRole cfg day day_str is_busy day_type employees shift_ids fairness_by_role
      role needed wh tdy asg = .ok res) :
    EngineInv cfg employees done day res.1 res.2.1 res.2.2 := by
  have hcand : ∀ e ∈ (mkRoleCtx cfg day day_str is_busy day_type employees shift_ids
      fairness_by_role role needed).role_candidates,
      e ∈ employees ∧ toUpper e.primary_role =
        (mkRoleCtx cfg day day_str is_busy day_type employees shift_ids
          fairness_by_role role needed).role := by
    intro e he
    have hm := List.mem_filter.mp he
    exact ⟨hm.1, by simpa using hm.2⟩
  unfold processRole at h
  split at h
  case isTrue =>
    simp only [Except.ok.injEq] at h
    subst h
    exact hinv
  case isFalse =>
    split at h
    case isTrue => exact absurd h (by simp)
    case isFalse =>
      split at h
      case h_1 => exact absurd h (by simp)
      case h_2 st heqslots =>
        split at h
        case h_1 => exact absurd h (by simp)
        case h_2 st1 heqfb =>
          simp only [Except.ok.injEq] at h
          subst h
          have hst := assignSlots_inv _ hcand (needed.toNat + 1)
            { wh := wh, assigned_today := tdy, assignments := asg,
              buffer := [], rr := shift_ids, slots_assigned := 0 } st hinv heqslots
          exact weekendFallback_inv _ is_busy hcand st st1 hst heqfb

theorem processRoles_inv {employees : List Employee} {done : List Date}
    (cfg : SchedulerConfig) (day : Date) (day_str : String) (is_busy : Bool)
    (day_type : String) (shift_ids : List Int)
    (fairness_by_role : List (String × List (Int × ℚ))) :
    ∀ (reqs : List (String × Int)) (acc res : List (Int × ℚ) × List Int × List Assignment),
      EngineInv cfg employees done day acc.1 acc.2.1 acc.2.2 →
      processRoles cfg day day_str is_busy day_type employees shift_ids fairness_by_role
        reqs acc = .ok res →
      EngineInv cfg employees done day res.1 res.2.1 res.2.2 := by
  intro reqs
  induction reqs with
  | nil =>
    intro acc res hinv h
    simp only [processRoles, Except.ok.injEq] at h
    subst h
    exact hinv
  | cons hd rest ih =>
    intro acc res hinv h
    obtain ⟨role, needed⟩ := hd
    obtain ⟨wh, tdy, asg⟩ := acc
    unfold processRoles at h
    split at h
    case h_1 => exact absurd h (by simp)
    case h_2 acc' heq =>
      exact ih acc' res
        (processRole_inv cfg day day_str is_busy day_type shift_ids fairness_by_role
          role needed wh tdy asg acc' hinv heq) h

/-- The cross-day invariant: like EngineInv but with every assignment's
date among the processed days. -/
structure TopInv (cfg : SchedulerConfig) (employees : List Employee) (done : List Date)
    (wh : List (Int × ℚ)) (asg : List Assignment) : Prop where
  count : ∀ e d, empDayCount asg e d ≤ 1
  dates : ∀ a ∈ asg, a.date ∈ done
  ledger : ∀ e, whGet wh e = sumDur asg e
  roleOk : ∀ a ∈ asg, ∃ emp, emp ∈ employees ∧ emp.employee_id = a.emp_id ∧
    toUpper emp.primary_role = a.role
  capOk : (employees.map (·.employee_id)).Nodup →
    ∀ a ∈ asg, sumDur asg a.emp_id ≤ roleHardCap cfg a.role

theorem processDay_inv {employees : List Employee} {done : List Date}
    (cfg : SchedulerConfig) (shifts : List Shift) (day : Date)
    (wh : List (Int × ℚ)) (asg : List Assignment)
    (res : List (Int × ℚ) × List Assignment)
    (hday : day ∉ done)
    (htop : TopInv cfg employees done wh asg)
    (h : processDay cfg employees shifts day wh asg = .ok res) :
    TopInv cfg employees (done ++ [day]) res.1 res.2 := by
  have hmono : TopInv cfg employees (done ++ [day]) wh asg :=
    ⟨htop.count, fun a ha => List.mem_append.mpr (Or.inl (htop.dates a ha)),
      htop.ledger, htop.roleOk, htop.capOk⟩
  unfold processDay at h
  split at h
  case isTrue =>
    simp only [Except.ok.injEq] at h
    subst h
    exact hmono
  case isFalse =>
    split at h
    case isTrue =>
      simp only [Except.ok.injEq] at h
      subst h
      exact hmono
    case isFalse =>
      split at h
      case h_1 => exact absurd h (by simp)
      case h_2 wh1 tdy1 asg1 heq =>
        simp only [Except.ok.injEq] at h
        subst h
        have hstart : EngineInv cfg employees done day wh [] asg := by
          refine ⟨htop.count, ?_, ?_, htop.ledger, htop.roleOk, htop.capOk⟩
          · intro a ha hd
            exact absurd (hd ▸ htop.dates a ha) hday
          · intro a ha
            exact Or.inr (htop.dates a ha)
        have hend := processRoles_inv cfg day day.iso (cfg.busy_days.contains day.dayName)
          (if cfg.busy_days.contains day.dayName then "weekend" else "weekday")
          ((shifts.filter (fun s => s.date == day)).map (·.shift_id))
          (fairnessByRole cfg employees wh (build_requirements_for_day day cfg))
          (build_requirements_for_day day cfg) (wh, [], asg) (wh1, tdy1, asg1) hstart heq
        refine ⟨hend.count, ?_, hend.ledger, hend.roleOk, hend.capOk⟩
        intro a ha
        rcases hend.dates a ha with hd | hd
        · exact List.mem_append.mpr (Or.inr (hd ▸ List.mem_singleton_self _))
        · exact List.mem_append.mpr (Or.inl hd)

theorem processDays_inv {employees : List Employee}
    (cfg : SchedulerConfig) (shifts : List Shift) :
    ∀ (days : List Date) (done : List Date) (wh : List (Int × ℚ)) (asg : List Assignment)
      (res : List (Int × ℚ) × List Assignment),
      TopInv cfg employees done wh asg →
      days.Nodup →
      (∀ d ∈ days, d ∉ done) →
      processDays cfg employees shifts days (wh, asg) = .ok res →
      TopInv cfg employees (done ++ days) res.1 res.2 := by
  intro days
  induction days with
  | nil =>
    intro done wh asg res htop _ _ h
    simp only [processDays, Except.ok.injEq] at h
    subst h
    simpa using htop
  | cons day rest ih =>
    intro done wh asg res htop hnodup hfresh h
    unfold processDays at h
    split at h
    case h_1 => exact absurd h (by simp)
    case h_2 acc' heq =>
      obtain ⟨wh1, asg1⟩ := acc'
      have hstep := processDay_inv cfg shifts day wh asg (wh1, asg1)
        (hfresh day (List.mem_cons_self _ _)) htop heq
      have hrest := ih (done ++ [day]) wh1 asg1 res hstep
        (List.nodup_cons.mp hnodup).2
        (by
          intro d hd hmem
          rcases List.mem_append.mp hmem with hm | hm
          · exact hfresh d (List.mem_cons_of_mem _ hd) hm
          · have : d = day := by simpa using hm
            exact (List.nodup_cons.mp hnodup).1 (this ▸ hd))
        h
      rw [List.append_assoc] at hrest
      simpa using hrest

theorem dedupFirstAux_fresh_nodup :
    ∀ (l seen : List Date),
      (∀ x ∈ dedupFirstAux seen l, x ∉ seen) ∧ (dedupFirstAux seen l).Nodup := by
  intro l
  induction l with
  | nil =>
    intro seen
    exact ⟨by intro x hx; simp [dedupFirstAux] at hx, by simp [dedupFirstAux]⟩
  | cons d ds ih =>
    intro seen
    unfold dedupFirstAux
    by_cases hc : seen.contains d
    · rw [if_pos hc]
      exact ih seen
    · rw [if_neg hc]
      have hd : d ∉ seen := fun hm => hc (List.elem_eq_true_of_mem hm)
      constructor
      · intro x hx
        rcases List.mem_cons.mp hx with h | h
        · exact h ▸ hd
        · intro hmem
          exact (ih (d :: seen)).1 x h (List.mem_cons_of_mem _ hmem)
      · refine List.nodup_cons.mpr ⟨?_, (ih (d :: seen)).2⟩
        intro hmem
        exact (ih (d :: seen)).1 d hmem (List.mem_cons_self _ _)

theorem dedupFirst_nodup : ∀ l : List Date, (dedupFirst l).Nodup := by
  intro l
  exact (dedupFirstAux_fresh_nodup l []).2

theorem scheduleDays_nodup (cfg : SchedulerConfig) (shifts : List Shift) :
    (scheduleDays cfg shifts).Nodup := by
  unfold scheduleDays
  split
  · refine List.Nodup.append ((dedupFirst_nodup _).filter _) ((dedupFirst_nodup _).filter _) ?_
    intro x hx hx'
    have h1 := (List.mem_filter.mp hx).2
    have h2 := (List.mem_filter.mp hx').2
    rw [h1] at h2
    simp at h2
  · exact dedupFirst_nodup _

theorem greedy_topInv (employees : List Employee) (shifts : List Shift)
    (cfg : SchedulerConfig) (res : List Assignment)
    (h : greedy_schedule employees shifts cfg = .ok res) :
    ∃ whF, TopInv cfg employees (scheduleDays cfg shifts) whF res := by
  unfold greedy_schedule at h
  split at h
  case h_1 => exact absurd h (by simp)
  case h_2 whF asgF heq =>
    simp only [Except.ok.injEq] at h
    subst h
    have htop0 : TopInv cfg employees [] [] [] := by
      refine ⟨?_, ?_, ?_, ?_, ?_⟩
      · intro e d
        simp [empDayCount]
      · intro a ha
        simp at ha
      · intro e
        simp [whGet, sumDur, List.lookup]
      · intro a ha
        simp at ha
      · intro _ a ha
        simp at ha
    have := processDays_inv cfg (sortShifts shifts) (scheduleDays cfg shifts) [] [] []
      (whF, asgF) htop0 (scheduleDays_nodup cfg shifts) (by intro d _ hd; simp at hd) heq
    exact ⟨whF, by simpa using this⟩

/-- Claim C1: on every input on which greedy_schedule returns a result, the
returned assignment list contains at most one assignment per (employee,
date) pair — the per-slot commit and the weekend-fallback commit both
filter out employees already assigned today, and the backtracking swap
never fires (its alternate pool is computed before the tentative undo and
is therefore a subset of the empty pool). -/
theorem C1_at_most_one_assignment_per_employee_day
    (employees : List Employee) (shifts : List Shift) (cfg : SchedulerConfig)
    (res : List Assignment)
    (h : greedy_schedule employees shifts cfg = .ok res) :
    ∀ (e : Int) (d : Date), empDayCount res e d ≤ 1 := by
  obtain ⟨whF, htop⟩ := greedy_topInv employees shifts cfg res h
  exact htop.count

/-- Witness for C1 at a concrete run: one manager, one Monday shift. -/
theorem C1_witness :
    empDayCount
      [{ shift_id := 1, emp_id := 1, date := { iso := "2025-09-01", dayName := "Monday" },
         start_time := ⟨7, 0⟩, end_time := ⟨15, 0⟩, role := "MANAGER",
         shift_type := some "weekday_single", day_type := some "weekday" }]
      1 { iso := "2025-09-01", dayName := "Monday" } ≤ 1 :=
  C1_at_most_one_assignment_per_employee_day
    [{ employee_id := 1, primary_role := "MANAGER" }]
    [{ shift_id := 1, date := { iso := "2025-09-01", dayName := "Monday" } }]
    { default_requirements := [("MANAGER", 1)] }
    [{ shift_id := 1, emp_id := 1, date := { iso := "2025-09-01", dayName := "Monday" },
       start_time := ⟨7, 0⟩, end_time := ⟨15, 0⟩, role := "MANAGER",
       shift_type := some "weekday_single", day_type := some "weekday" }]
    (by rfl) 1 { iso := "2025-09-01", dayName := "Monday" }

/-- Claim C2: on every input on which greedy_schedule returns a result,
each employee's total assigned duration (sum of end minus start over their
assignments) is at most the hard cap of their primary role
(hours_policy hard_cap, defaulting to hours_caps
max_hours_per_week_per_employee).  Employee ids must be distinct (pandas
rows are keyed by employee_id) and the cap non-negative (an employee with
no assignments has total 0). -/
theorem C2_weekly_hours_within_hard_cap
    (employees : List Employee) (shifts : List Shift) (cfg : SchedulerConfig)
    (res : List Assignment) (emp : Employee)
    (h : greedy_schedule employees shifts cfg = .ok res)
    (hmem : emp ∈ employees)
    (hnd : (employees.map (·.employee_id)).Nodup)
    (hcap0 : 0 ≤ roleHardCap cfg (toUpper emp.primary_role)) :
    sumDur res emp.employee_id ≤ roleHardCap cfg (toUpper emp.primary_role) := by
  obtain ⟨whF, htop⟩ := greedy_topInv employees shifts cfg res h
  by_cases hex : ∃ a ∈ res, a.emp_id = emp.employee_id
  · obtain ⟨a, ha, hae⟩ := hex
    obtain ⟨emp', hm', hid', hr'⟩ := htop.roleOk a ha
    have hsame : emp' = emp := List.inj_on_of_nodup_map hnd hm' hmem (by rw [hid', hae])
    have hcap := htop.capOk hnd a ha
    rw [hae, ← hr', hsame] at hcap
    exact hcap
  · push_neg at hex
    have hzero : sumDur res emp.employee_id = 0 := by
      unfold sumDur
      have hnil : res.filter (fun a => a.emp_id == emp.employee_id) = [] := by
        rw [List.filter_eq_nil_iff]
        intro a ha hbe
        exact hex a ha (beq_iff_eq.mp hbe)
      rw [hnil]
      simp
    rw [hzero]
    exact hcap0

/-- Witness for C2 at a concrete run: the manager works 8 hours, cap 40. -/
theorem C2_witness :
    sumDur
      [{ shift_id := 1, emp_id := 1, date := { iso := "2025-09-01", dayName := "Monday" },
         start_time := ⟨7, 0⟩, end_time := ⟨15, 0⟩, role := "MANAGER",
         shift_type := some "weekday_single", day_type := some "weekday" }]
      1 ≤ roleHardCap { default_requirements := [("MANAGER", 1)] } (toUpper "MANAGER") :=
  C2_weekly_hours_within_hard_cap
    [{ employee_id := 1, primary_role := "MANAGER" }]
    [{ shift_id := 1, date := { iso := "2025-09-01", dayName := "Monday" } }]
    { default_requirements := [("MANAGER", 1)] }
    [{ shift_id := 1, emp_id := 1, date := { iso := "2025-09-01", dayName := "Monday" },
       start_time := ⟨7, 0⟩, end_time := ⟨15, 0⟩, role := "MANAGER",
       shift_type := some "weekday_single", day_type := some "weekday" }]
    { employee_id := 1, primary_role := "MANAGER" }
    (by rfl) (List.mem_singleton_self _) (by simp) (by norm_num [roleHardCap])

/-- Claim C3 counterexample: for the cohort hours map {1 ↦ 0, 2 ↦ 2} and
fairness factor 1/4, the engine's fairness_penalty (scoring.py, used by
greedy_schedule via fairness_by_role) gives employee 2 the penalty
max(0, (2 − median 1)/std 1) × 1/4 = 1/4, while the claimed formula
max(0, 2 − min 0) × 1/4 gives 1/2. -/
theorem C3_counterexample :
    (fairness_penalty [(1, 0), (2, 2)] "BARISTA" {}).lookup 2 = some (1/4) ∧
    claimedCohortPenalty 2 [0, 2] (1/4) = 1/2 ∧
    some ((1 : ℚ)/4) ≠ some ((1 : ℚ)/2) := by
  refine ⟨by decide, by decide, by decide⟩

/-- Claim C3 amended: the min-based cohort rotation formula holds for the
services implementation calculate_fairness_penalty (services/scoring.py)
whenever the employee is in the cohort with the given hours; the engine's
fairness_penalty instead computes a median/std z-score times the factor. -/
theorem C3_amended_min_based_fairness_in_services
    (emp_id : Int) (h : ℚ) (cohort : List (Int × ℚ)) (factor : ℚ)
    (hlk : cohort.lookup emp_id = some h) :
    calculate_fairness_penalty emp_id h cohort factor =
      max 0 (h - listMin (cohort.map (·.2))) * factor := by
  unfold calculate_fairness_penalty
  by_cases hlen : cohort.length ≤ 1
  · rw [if_pos hlen]
    cases cohort with
    | nil => exact absurd hlk (by simp [List.lookup])
    | cons hd tl =>
      cases tl with
      | nil =>
        obtain ⟨k, v⟩ := hd
        cases hek : (emp_id == k) with
        | true =>
          simp only [List.lookup, hek, Option.some.injEq] at hlk
          subst hlk
          simp [listMin]
        | false =>
          simp only [List.lookup, hek] at hlk
          exact absurd hlk (by simp [List.lookup])
      | cons hd2 tl2 => simp at hlen
  · rw [if_neg hlen]
    by_cases hc : h ≤ listMin (cohort.map (·.2))
    · rw [if_pos hc]
      have hmax : max 0 (h - listMin (cohort.map (·.2))) = 0 :=
        max_eq_left (by linarith)
      rw [hmax, zero_mul]
    · rw [if_neg hc]
      have hmax : max 0 (h - listMin (cohort.map (·.2))) = h - listMin (cohort.map (·.2)) :=
        max_eq_right (by linarith)
      rw [hmax]
      ring

/-- Witness for the amended C3 at a concrete cohort. -/
theorem C3_witness :
    calculate_fairness_penalty 1 5 [(1, 5), (2, 3)] (1/4) =
      max 0 ((5 : ℚ) - listMin (([(1, 5), (2, 3)] : List (Int × ℚ)).map (·.2))) * (1/4) :=
  C3_amended_min_based_fairness_in_services 1 5 [(1, 5), (2, 3)] (1/4) (by decide)

/-- Claim C5: on a busy Saturday with one barista, requirement 2, and an
enabled weekend-fallback policy (min_required 1, allow_single_full_shift),
greedy_schedule raises CoverageError from inside the slot loop instead of
reaching the fallback block: the loop can only exit with every slot filled
or by raising, so the block after it (and its own comment, "if we exit
loop without filling all needed slots") is unreachable, contradicting the
documented fallback behaviour of accepting the day with
slots ≥ min_required. -/
theorem C5_fallback_unreachable_failing_input :
    greedy_schedule
      [{ employee_id := 1, primary_role := "BARISTA" }]
      [{ shift_id := 1, date := ⟨"2025-09-06", "Saturday"⟩ }]
      { default_requirements := [],
        weekend_requirements := [("BARISTA", 2)],
        weekend_fallback := [("BARISTA",
          { enabled := some true, min_required := some 1,
            allow_single_full_shift := some true })] } =
      .error (.insufficientStaff "2025-09-06" "BARISTA") := by
  rfl

theorem argmax_foldl_split {α : Type} (f : α → ℚ) :
    ∀ (xs : List α) (x : α),
      ∃ l₁ l₂, x :: xs = l₁ ++
          (xs.foldl (fun best y => if f y > f best then y else best) x) :: l₂ ∧
        (∀ b ∈ l₁, f b < f (xs.foldl (fun best y => if f y > f best then y else best) x)) ∧
        (∀ b ∈ l₂, f b ≤ f (xs.foldl (fun best y => if f y > f best then y else best) x)) := by
  intro xs
  induction xs with
  | nil =>
    intro x
    exact ⟨[], [], by simp, by simp, by simp⟩
  | cons y ys ih =>
    intro x
    simp only [List.foldl_cons]
    by_cases hc : f y > f x
    · rw [if_pos hc]
      obtain ⟨l₁, l₂, heq, hlt, hle⟩ := ih y
      refine ⟨x :: l₁, l₂, by rw [List.cons_append, ← heq], ?_, hle⟩
      intro b hb
      rcases List.mem_cons.mp hb with hb' | hb'
      · subst hb'
        calc f b < f y := hc
          _ ≤ f (ys.foldl (fun best y => if f y > f best then y else best) y) :=
            argmax_foldl_ge f ys y y (List.mem_cons_self _ _)
      · exact hlt b hb'
    · rw [if_neg hc]
      obtain ⟨l₁, l₂, heq, hlt, hle⟩ := ih x
      cases l₁ with
      | nil =>
        simp only [List.nil_append] at heq
        have hx : x = ys.foldl (fun best y => if f y > f best then y else best) x :=
          (List.cons.injEq _ _ _ _ ▸ heq).1
        have hys : ys = l₂ := (List.cons.injEq _ _ _ _ ▸ heq).2
        refine ⟨[], y :: ys, ?_, by simp, ?_⟩
        · simp only [List.nil_append]
          rw [← hx]
        · intro b hb
          rcases List.mem_cons.mp hb with hb' | hb'
          · subst hb'
            rw [← hx]
            exact le_of_not_lt hc
          · exact hle b (hys ▸ hb')
      | cons x₁ l₁' =>
        simp only [List.cons_append] at heq
        have hx : x = x₁ := (List.cons.injEq _ _ _ _ ▸ heq).1
        have hys : ys = l₁' ++
            (ys.foldl (fun best y => if f y > f best then y else best) x) :: l₂ :=
          (List.cons.injEq _ _ _ _ ▸ heq).2
        have hxlt : f x < f (ys.foldl (fun best y => if f y > f best then y else best) x) := by
          have hx₁ := hlt x₁ (List.mem_cons_self _ _)
          rw [← hx] at hx₁
          exact hx₁
        refine ⟨x :: y :: l₁', l₂, ?_, ?_, hle⟩
        · rw [List.cons_append, List.cons_append, ← hys]
        · intro b hb
          rcases List.mem_cons.mp hb with hb' | hb'
          · subst hb'
            exact hxlt
          · rcases List.mem_cons.mp hb' with hb'' | hb''
            · subst hb''
              exact lt_of_le_of_lt (le_of_not_lt hc) hxlt
            · exact hlt b (List.mem_cons_of_mem _ hb'')

/-- Claim C9 counterexample: two managers listed in the order [id 5, id 2]
tie on every score term, and greedy_schedule assigns the slot to id 5, the
first row in input order, not to the lowest id 2. -/
theorem C9_counterexample :
    greedy_schedule
      [{ employee_id := 5, primary_role := "MANAGER" },
       { employee_id := 2, primary_role := "MANAGER" }]
      [{ shift_id := 1, date := ⟨"2025-09-01", "Monday"⟩ }]
      { default_requirements := [("MANAGER", 1)] } =
      .ok [{ shift_id := 1, emp_id := 5, date := ⟨"2025-09-01", "Monday"⟩,
             start_time := ⟨7, 0⟩, end_time := ⟨15, 0⟩, role := "MANAGER",
             shift_type := some "weekday_single", day_type := some "weekday" }] ∧
    score_row { default_requirements := [("MANAGER", 1)] } "MANAGER" ⟨⟨7, 0⟩, ⟨15, 0⟩⟩
        [] [(5, 0), (2, 0)] { employee_id := 5, primary_role := "MANAGER" } =
      score_row { default_requirements := [("MANAGER", 1)] } "MANAGER" ⟨⟨7, 0⟩, ⟨15, 0⟩⟩
        [] [(5, 0), (2, 0)] { employee_id := 2, primary_role := "MANAGER" } ∧
    (2 : Int) < 5 := by
  refine ⟨by rfl, by rfl, by decide⟩

/-- Claim C9 amended: a tie among maximal-score candidates is broken by
the earliest position in the pool's row order (Series.idxmax returns the
first maximal label), which is the employees input order, not the lowest
employee id: argmaxBy returns an element such that everything before it in
the list scores strictly less and everything after it scores at most as
much. -/
theorem C9_amended_first_position_tie_break {α : Type} (f : α → ℚ) (l : List α) (a : α)
    (h : argmaxBy f l = some a) :
    ∃ l₁ l₂, l = l₁ ++ a :: l₂ ∧ (∀ b ∈ l₁, f b < f a) ∧ (∀ b ∈ l₂, f b ≤ f a) := by
  cases l with
  | nil => exact absurd h (by simp [argmaxBy])
  | cons x xs =>
    simp only [argmaxBy, Option.some.injEq] at h
    subst h
    exact argmax_foldl_split f xs x

/-- Witness for the amended C9 at a concrete tied pool. -/
theorem C9_witness :
    ∃ l₁ l₂, ([5, 2] : List Int) = l₁ ++ 5 :: l₂ ∧
      (∀ b ∈ l₁, (1 : ℚ) < 1) ∧ (∀ b ∈ l₂, (1 : ℚ) ≤ 1) :=
  C9_amended_first_position_tie_break (fun _ => (1 : ℚ)) [5, 2] 5 (by rfl)

theorem lookup_map_setKV (m : List (String × Int)) (k : String) (v : Int) (x : String) :
    (m.map (fun p => if p.1 = k then (k, v) else p)).lookup x =
      (m.lookup x).map (fun w => if x = k then v else w) := by
  induction m with
  | nil => rfl
  | cons hd tl ih =>
    obtain ⟨k', w⟩ := hd
    simp only [List.map_cons]
    by_cases hk : k' = k
    · rw [if_pos hk]
      cases hx : (x == k') with
      | true =>
        have hxk : x = k' := by simpa using hx
        have hxk2 : (x == k) = true := by simp [hxk, hk]
        simp only [List.lookup, hxk2, hx, Option.map_some']
        rw [if_pos (hxk.trans hk)]
      | false =>
        have hxk : x ≠ k' := by simpa using hx
        have hxk2 : (x == k) = false := by
          simp only [beq_eq_false_iff_ne, ne_eq]
          rw [← hk]
          exact hxk
        simp only [List.lookup, hxk2, hx]
        exact ih
    · rw [if_neg hk]
      cases hx : (x == k') with
      | true =>
        have hxk : x = k' := by simpa using hx
        simp only [List.lookup, hx, Option.map_some']
        rw [if_neg (by rw [hxk]; exact hk)]
      | false =>
        simp only [List.lookup, hx]
        exact ih

theorem lookup_setKV (m : List (String × Int)) (k : String) (v : Int) (x : String) :
    (setKV m k v).lookup x = if x = k then some v else m.lookup x := by
  unfold setKV
  by_cases hs : (m.lookup k).isSome
  · rw [if_pos hs, lookup_map_setKV]
    by_cases hx : x = k
    · subst hx
      obtain ⟨w, hw⟩ := Option.isSome_iff_exists.mp hs
      rw [hw]
      simp
    · rw [if_neg hx]
      cases hl : m.lookup x <;> simp [hx]
  · rw [if_neg hs]
    by_cases hx : x = k
    · subst hx
      have hnone := Option.not_isSome_iff_eq_none.mp hs
      rw [if_pos rfl, lookup_append_right _ _ _ hnone]
      simp [List.lookup]
    · rw [if_neg hx]
      cases hl : m.lookup x with
      | none =>
        rw [lookup_append_right _ _ _ hl]
        have : (x == k) = false := by simp [hx]
        simp [List.lookup, this]
      | some w =>
        rw [lookup_append_left _ _ _ _ hl]

theorem lastVal_shift (k : String) :
    ∀ (l : List (String × Int)) (acc : Option Int),
      l.foldl (fun acc p => if p.1 = k then some p.2 else acc) acc =
        optOr (l.foldl (fun acc p => if p.1 = k then some p.2 else acc) none) acc := by
  intro l
  induction l with
  | nil => intro acc; rfl
  | cons p l ih =>
    intro acc
    simp only [List.foldl_cons]
    rw [ih (if p.1 = k then some p.2 else acc), ih (if p.1 = k then some p.2 else none)]
    by_cases hp : p.1 = k
    · rw [if_pos hp, if_pos hp]
      cases hres : l.foldl (fun acc p => if p.1 = k then some p.2 else acc) none <;>
        simp [optOr]
    · rw [if_neg hp, if_neg hp]
      cases hres : l.foldl (fun acc p => if p.1 = k then some p.2 else acc) none <;>
        simp [optOr]

theorem lastVal_cons (p : String × Int) (l : List (String × Int)) (k : String) :
    lastVal (p :: l) k = optOr (lastVal l k) (if p.1 = k then some p.2 else none) := by
  unfold lastVal
  simp only [List.foldl_cons]
  exact lastVal_shift k l (if p.1 = k then some p.2 else none)

theorem lookup_foldl_setKV :
    ∀ (l : List (String × Int)) (m : List (String × Int)) (k : String),
      ((l.foldl (fun m p => setKV m p.1 p.2) m).lookup k) =
        optOr (lastVal l k) (m.lookup k) := by
  intro l
  induction l with
  | nil => intro m k; rfl
  | cons p l ih =>
    intro m k
    simp only [List.foldl_cons]
    rw [ih, lastVal_cons, lookup_setKV]
    by_cases hk : k = p.1
    · rw [if_pos hk, if_pos hk.symm]
      cases hres : lastVal l k <;> simp [optOr]
    · rw [if_neg hk, if_neg (fun h => hk h.symm)]
      cases hres : lastVal l k <;> simp [optOr]

/-- Claim C6 counterexample: with busy_days = ["Friday"] and weekend
requirements BARISTA ↦ 5 over defaults BARISTA ↦ 2, the resolver leaves
Friday 2025-01-03 at the default 2 — the overlay fires only for the
hardcoded Saturday/Sunday names, not for the configured busy-day set the
claim describes. -/
theorem C6_counterexample :
    build_requirements_for_day ⟨"2025-01-03", "Friday"⟩
        { default_requirements := [("BARISTA", 2)],
          weekend_requirements := [("BARISTA", 5)],
          busy_days := ["Friday"] } = [("BARISTA", 2)] ∧
    claimedRequirementsForDay ⟨"2025-01-03", "Friday"⟩
        { default_requirements := [("BARISTA", 2)],
          weekend_requirements := [("BARISTA", 5)],
          busy_days := ["Friday"] } = [("BARISTA", 5)] ∧
    ([("BARISTA", 2)] : List (String × Int)) ≠ [("BARISTA", 5)] := by
  refine ⟨by decide, by decide, by decide⟩

/-- Claim C6 amended: a role's resolved requirement is the date-specific
override when present, else the weekend overlay exactly when the date is a
Saturday or Sunday (hardcoded, independent of the configured busy-day
set), else the default; each layer fully replaces the role's count (a
layer's last binding wins). -/
theorem C6_amended_layering_with_hardcoded_weekend (date : Date) (cfg : SchedulerConfig)
    (role : String) :
    (build_requirements_for_day date cfg).lookup role =
      optOr (lastVal ((cfg.overrides.lookup date.iso).getD []) role)
        (optOr
          (if date.dayName == "Saturday" || date.dayName == "Sunday" then
            lastVal cfg.weekend_requirements role
          else none)
          (cfg.default_requirements.lookup role)) := by
  unfold build_requirements_for_day
  by_cases hwk : (date.dayName == "Saturday" || date.dayName == "Sunday") = true
  · cases hov : cfg.overrides.lookup date.iso with
    | none =>
      simp only [hov, Option.getD_none]
      rw [if_pos hwk, if_pos hwk, lookup_foldl_setKV]
      rfl
    | some ov =>
      simp only [hov, Option.getD_some]
      rw [if_pos hwk, if_pos hwk, lookup_foldl_setKV, lookup_foldl_setKV]
  · cases hov : cfg.overrides.lookup date.iso with
    | none =>
      simp only [hov, Option.getD_none]
      rw [if_neg hwk, if_neg hwk]
      rfl
    | some ov =>
      simp only [hov, Option.getD_some]
      rw [if_neg hwk, if_neg hwk, lookup_foldl_setKV]
      rfl

/-- Claim C7: every candidate that reaches scoring (membership in the
strictly filtered pool built from eligible_mask and the hard-cap
re-filter) has projected hours within the role hard cap and any global
hard cap, so score_row's -1000 hard-cap branch is unreachable for scored
candidates and the score is always the fitness minus fairness minus
band-deviation expression. -/
theorem C7_scored_pool_within_caps
    (cfg : SchedulerConfig) (role : String) (w : Window) (tdy : List Int)
    (wh : List (Int × ℚ)) (cands : List Employee) (fm : List (Int × ℚ)) (e : Employee)
    (h : e ∈ strictPool cfg role w tdy wh cands) :
    whGet wh e.employee_id + durationHours w.start w.stop ≤ roleHardCap cfg role ∧
    (∀ g, cfg.global_hard_cap = some g →
      whGet wh e.employee_id + durationHours w.start w.stop ≤ g) ∧
    score_row cfg role w wh fm e =
      role_fitness e role cfg.weights - ((fm.lookup e.employee_id).getD 0)
        - hours_deviation_penalty (whGet wh e.employee_id + durationHours w.start w.stop)
            role cfg.hours_policy cfg.hours_penalties := by
  obtain ⟨hc, helig⟩ := strictPool_facts h
  have hf := eligible_mask_facts helig
  refine ⟨hf.2.1, hf.2.2.1, ?_⟩
  unfold score_row
  rw [if_neg (not_lt.mpr hf.2.1)]

/-- Witness for C7 at a concrete slot pool. -/
theorem C7_witness :
    whGet [] (1 : Int) + durationHours ⟨7, 0⟩ ⟨15, 0⟩ ≤ roleHardCap {} "MANAGER" ∧
    (∀ g, ({} : SchedulerConfig).global_hard_cap = some g →
      whGet [] (1 : Int) + durationHours ⟨7, 0⟩ ⟨15, 0⟩ ≤ g) ∧
    score_row {} "MANAGER" ⟨⟨7, 0⟩, ⟨15, 0⟩⟩ [] []
        { employee_id := 1, primary_role := "MANAGER" } =
      role_fitness { employee_id := 1, primary_role := "MANAGER" } "MANAGER"
          ({} : SchedulerConfig).weights
        - ((([] : List (Int × ℚ)).lookup (1 : Int)).getD 0)
        - hours_deviation_penalty (whGet [] (1 : Int) + durationHours ⟨7, 0⟩ ⟨15, 0⟩)
            "MANAGER" ({} : SchedulerConfig).hours_policy ({} : SchedulerConfig).hours_penalties :=
  C7_scored_pool_within_caps {} "MANAGER" ⟨⟨7, 0⟩, ⟨15, 0⟩⟩ [] []
    [{ employee_id := 1, primary_role := "MANAGER" }] []
    { employee_id := 1, primary_role := "MANAGER" } (by decide)

/-- Claim C8 counterexample: with role policy target_min 10 / target_max
40, current hours 8 and a slot of 8 hours, calculate_employee_score
applies the band penalty to the current hours (penalty (10-8)·1/2 = 1,
score 0) while the claimed projected-hours computation (h = 16, inside the
band) would give score 1. -/
theorem C8_counterexample :
    calculate_employee_score { employee_id := 1, primary_role := "MANAGER" } "MANAGER" 8
        [(1, 8)] [("manager_weight", 1)]
        [("MANAGER", { target_min := some 10, target_max := some 40, hard_cap := some 40 })]
        [("per_hour_below_target", 1/2), ("per_hour_above_target", 3/4)] = 0 ∧
    calculate_role_fitness { employee_id := 1, primary_role := "MANAGER" } "MANAGER"
          [("manager_weight", 1)]
        - calculate_fairness_penalty 1 8 [(1, 8)] (1/4)
        - bandPenaltySpec (8 + 8) 10 40 (1/2) (3/4) = 1 ∧
    (0 : ℚ) ≠ 1 := by
  refine ⟨by decide, by decide, by decide⟩

/-- Claim C8 amended: the band-deviation formula holds in both scorers
over the hours value each one feeds it — the engine's score_row feeds the
projected post-assignment hours (current plus slot duration), while
calculate_employee_score feeds its current_hours argument unchanged, with
no slot duration added (its deviation penalty is
calculate_hours_deviation_penalty at current_hours). -/
theorem C8_amended_band_formula_and_hours_fed :
    (∀ (cfg : SchedulerConfig) (role : String) (w : Window) (wh fm : List (Int × ℚ))
       (e : Employee) (pol : HoursPolicyEntry) (tmin tmax rb ra : ℚ),
       cfg.hours_policy.lookup role = some pol →
       pol.target_min = some tmin → pol.target_max = some tmax →
       cfg.hours_penalties.lookup "per_hour_below_target" = some rb →
       cfg.hours_penalties.lookup "per_hour_above_target" = some ra →
       whGet wh e.employee_id + durationHours w.start w.stop ≤ roleHardCap cfg role →
       score_row cfg role w wh fm e =
         role_fitness e role cfg.weights - ((fm.lookup e.employee_id).getD 0)
           - bandPenaltySpec (whGet wh e.employee_id + durationHours w.start w.stop)
               tmin tmax rb ra) ∧
    (∀ (h : ℚ) (role : String) (pol_map : List (String × HoursPolicyEntry))
       (pens : List (String × ℚ)) (pol : HoursPolicyEntry) (tmin tmax rb ra : ℚ),
       pol_map.lookup (toUpper role) = some pol →
       pol.target_min = some tmin → pol.target_max = some tmax → tmin ≤ tmax →
       pens.lookup "per_hour_below_target" = some rb →
       pens.lookup "per_hour_above_target" = some ra →
       calculate_hours_deviation_penalty h role pol_map pens =
         bandPenaltySpec h tmin tmax rb ra) ∧
    (∀ (e : Employee) (role : String) (h : ℚ) (cohort : List (Int × ℚ))
       (wts : List (String × ℚ)) (pol_map : List (String × HoursPolicyEntry))
       (pens : List (String × ℚ)),
       calculate_employee_score e role h cohort wts pol_map pens =
         calculate_role_fitness e role wts
           - calculate_fairness_penalty e.employee_id h cohort
               ((wts.lookup "fairness_penalty_per_std_above_median").getD (1/4))
           - calculate_hours_deviation_penalty h role pol_map pens) := by
  refine ⟨?_, ?_, ?_⟩
  · intro cfg role w wh fm e pol tmin tmax rb ra hpol htmin htmax hrb hra hcap
    unfold score_row
    rw [if_neg (not_lt.mpr hcap)]
    unfold hours_deviation_penalty bandPenaltySpec
    rw [hpol]
    dsimp only
    rw [htmin, htmax, hrb, hra]
    simp only [Option.getD_some]
  · intro h role pol_map pens pol tmin tmax rb ra hpol htmin htmax hmm hrb hra
    unfold calculate_hours_deviation_penalty bandPenaltySpec
    rw [hpol]
    simp only [Option.getD_some]
    rw [htmin, htmax, hrb, hra]
    simp only [Option.getD_some]
    by_cases h1 : h < tmin
    · rw [if_pos h1]
      have e1 : max 0 (tmin - h) = tmin - h := max_eq_right (by linarith)
      have e2 : max 0 (h - tmax) = 0 := max_eq_left (by linarith)
      rw [e1, e2]
      ring
    · rw [if_neg h1]
      by_cases h2 : h > tmax
      · rw [if_pos h2]
        have e1 : max 0 (tmin - h) = 0 := max_eq_left (by linarith)
        have e2 : max 0 (h - tmax) = h - tmax := max_eq_right (by linarith)
        rw [e1, e2]
        ring
      · rw [if_neg h2]
        have e1 : max 0 (tmin - h) = 0 := max_eq_left (by linarith)
        have e2 : max 0 (h - tmax) = 0 := max_eq_left (by linarith)
        rw [e1, e2]
        ring
  · intro e role h cohort wts pol_map pens
    rfl

/-- Witness for the amended C8: the services deviation penalty at 8 hours
under policy [10, 40] matches the band formula at 8 (not at 16). -/
theorem C8_witness :
    calculate_hours_deviation_penalty 8 "MANAGER"
        [("MANAGER", { target_min := some 10, target_max := some 40, hard_cap := some 40 })]
        [("per_hour_below_target", 1/2), ("per_hour_above_target", 3/4)] =
      bandPenaltySpec 8 10 40 (1/2) (3/4) :=
  C8_amended_band_formula_and_hours_fed.2.1 8 "MANAGER"
    [("MANAGER", { target_min := some 10, target_max := some 40, hard_cap := some 40 })]
    [("per_hour_below_target", 1/2), ("per_hour_above_target", 3/4)]
    { target_min := some 10, target_max := some 40, hard_cap := some 40 }
    10 40 (1/2) (3/4) (by decide) rfl rfl (by norm_num) (by decide) (by decide)

/-- Claim C10: validate_assignments can never return normally — after the
referential-integrity, café-hours and overlap checks it evaluates the
unbound names per_role_caps / global_hard_cap (validator.py lines 72/83)
and raises NameError, so on every input that passes the early checks the
outcome is NameError and the weekly-cap and coverage checks are
unreachable. -/
theorem C10_validator_always_raises :
    (∀ (employees : List Employee) (shifts : List Shift) (assignments : List Assignment)
       (s e : HM) (reqs : Option (List (String × List (String × Int)))),
       validate_assignments employees shifts assignments s e reqs ≠ .ok ()) ∧
    (∀ (employees : List Employee) (shifts : List Shift) (assignments : List Assignment)
       (s e : HM) (reqs : Option (List (String × List (String × Int)))),
       earlyChecksPass employees shifts assignments = true →
       validate_assignments employees shifts assignments s e reqs = .error .nameError) := by
  constructor
  · intro employees shifts assignments s e reqs
    unfold validate_assignments
    split_ifs <;> simp
  · intro employees shifts assignments s e reqs h
    unfold earlyChecksPass at h
    simp only [Bool.and_eq_true, Bool.not_eq_true'] at h
    obtain ⟨⟨⟨⟨⟨⟨h1, h2⟩, h3⟩, h4⟩, h5⟩, h6⟩, h7⟩ := h
    unfold validate_assignments
    rw [h1, h2, h3, h4, h5, h6, h7]
    simp

/-- Witness for C10: the empty assignment list passes every early check
and still errors with NameError. -/
theorem C10_witness :
    validate_assignments [{ employee_id := 1, primary_role := "MANAGER" }]
      [{ shift_id := 1, date := ⟨"2025-09-01", "Monday"⟩ }] [] ⟨7, 0⟩ ⟨15, 0⟩ none =
      .error .nameError :=
  C10_validator_always_raises.2 [{ employee_id := 1, primary_role := "MANAGER" }]
    [{ shift_id := 1, date := ⟨"2025-09-01", "Monday"⟩ }] [] ⟨7, 0⟩ ⟨15, 0⟩ none (by decide)

theorem mem_foldr_append {α β : Type} (f : α → List β) (l : List α) (x : β) :
    (x ∈ l.foldr (fun a acc => f a ++ acc) []) ↔ ∃ a ∈ l, x ∈ f a := by
  induction l with
  | nil => simp
  | cons a l ih =>
    simp only [List.foldr_cons, List.mem_append, ih, List.mem_cons]
    constructor
    · rintro (hx | ⟨b, hb, hx⟩)
      · exact ⟨a, Or.inl rfl, hx⟩
      · exact ⟨b, Or.inr hb, hx⟩
    · rintro ⟨b, hb | hb, hx⟩
      · exact Or.inl (hb ▸ hx)
      · exact Or.inr ⟨b, hb, hx⟩

theorem mem_coverageMismatches {asg : List Assignment} {shifts : List Shift}
    {cfg : SchedulerConfig} {x : String × String} :
    x ∈ coverageMismatches asg shifts cfg ↔
      ∃ d ∈ dedupFirst (shifts.map (·.date)),
        ∃ p ∈ build_requirements_for_day d cfg,
          countRoleOnDate asg d (toUpper p.1) ≠ p.2 ∧ x = (d.iso, toUpper p.1) := by
  unfold coverageMismatches
  rw [mem_foldr_append]
  constructor
  · rintro ⟨d, hd, hx⟩
    obtain ⟨p, hp, hpx⟩ := List.mem_map.mp hx
    have hpf := List.mem_filter.mp hp
    refine ⟨d, hd, p, hpf.1, ?_, hpx.symm⟩
    have h2 := hpf.2
    simpa using h2
  · rintro ⟨d, hd, p, hp, hne, hx⟩
    refine ⟨d, hd, ?_⟩
    rw [hx]
    apply List.mem_map.mpr
    refine ⟨p, ?_, rfl⟩
    exact List.mem_filter.mpr ⟨hp, by simpa using hne⟩

/-- Claim C4 counterexample: a Saturday with requirement BARISTA = 2,
weekend fallback enabled with min_required 1, and one BARISTA assignment
(count 1 ≥ min_required, below the requirement): the claim says validation
accepts the pair as fallback-relaxed, but the coverage check of
validate_cp_sat_schedule flags it as a mismatch — no relaxation exists. -/
theorem C4_counterexample :
    ("2025-09-06", "BARISTA") ∈ coverageMismatches
        [{ shift_id := 1, emp_id := 1, date := ⟨"2025-09-06", "Saturday"⟩,
           start_time := ⟨7, 0⟩, end_time := ⟨15, 0⟩, role := "BARISTA" }]
        [{ shift_id := 1, date := ⟨"2025-09-06", "Saturday"⟩ }]
        { default_requirements := [], weekend_requirements := [("BARISTA", 2)],
          weekend_fallback := [("BARISTA",
            { enabled := some true, min_required := some 1,
              allow_single_full_shift := some true })] } ∧
    countRoleOnDate
        [{ shift_id := 1, emp_id := 1, date := ⟨"2025-09-06", "Saturday"⟩,
           start_time := ⟨7, 0⟩, end_time := ⟨15, 0⟩, role := "BARISTA" }]
        ⟨"2025-09-06", "Saturday"⟩ "BARISTA" = 1 ∧
    ("BARISTA", 2) ∈ build_requirements_for_day ⟨"2025-09-06", "Saturday"⟩
        { default_requirements := [], weekend_requirements := [("BARISTA", 2)],
          weekend_fallback := [("BARISTA",
            { enabled := some true, min_required := some 1,
              allow_single_full_shift := some true })] } ∧
    (1 : Int) ≤ 1 := by
  refine ⟨by decide, by decide, by decide, by decide⟩

/-- Claim C4 amended: for every (date, role) pair of a day's requirement
map, the coverage validation passes the pair if and only if the assignment
count equals the requirement exactly; the weekend-fallback configuration
is never consulted (count ≥ minRequired but below the requirement is
rejected).  The uniqueness hypotheses pin the pair down among the
rendered (date string, upper-cased role) error labels. -/
theorem C4_amended_exact_coverage_no_relaxation :
    (∀ (asg : List Assignment) (shifts : List Shift) (cfg : SchedulerConfig) (d : Date)
       (p : String × Int),
       d ∈ dedupFirst (shifts.map (·.date)) →
       p ∈ build_requirements_for_day d cfg →
       0 < p.2 →
       (∀ d' ∈ dedupFirst (shifts.map (·.date)), d'.iso = d.iso → d' = d) →
       (∀ q ∈ build_requirements_for_day d cfg, toUpper q.1 = toUpper p.1 → q = p) →
       ((d.iso, toUpper p.1) ∉ coverageMismatches asg shifts cfg ↔
         countRoleOnDate asg d (toUpper p.1) = p.2)) ∧
    (∀ (asg : List Assignment) (shifts : List Shift) (cfg : SchedulerConfig)
       (fb : List (String × FallbackEntry)),
       coverageMismatches asg shifts { cfg with weekend_fallback := fb } =
         coverageMismatches asg shifts cfg) := by
  constructor
  · intro asg shifts cfg d p hd hp hpos hdinj hpinj
    constructor
    · intro hnotmem
      by_contra hne
      exact hnotmem (mem_coverageMismatches.mpr ⟨d, hd, p, hp, hne, rfl⟩)
    · intro heq hmem
      obtain ⟨d', hd', p', hp', hne', hx'⟩ := mem_coverageMismatches.mp hmem
      rw [Prod.mk.injEq] at hx'
      have hdd : d' = d := hdinj d' hd' hx'.1.symm
      subst hdd
      have hpp : p' = p := hpinj p' hp' hx'.2.symm
      subst hpp
      rw [← hx'.2] at hne'
      exact hne' heq
  · intro asg shifts cfg fb
    rfl

/-- Witness for the amended C4: two BARISTA assignments against
requirement 2 pass the pair exactly. -/
theorem C4_witness :
    (("2025-09-06", "BARISTA") ∉ coverageMismatches
        [{ shift_id := 1, emp_id := 1, date := ⟨"2025-09-06", "Saturday"⟩,
           start_time := ⟨7, 0⟩, end_time := ⟨15, 0⟩, role := "BARISTA" },
         { shift_id := 1, emp_id := 2, date := ⟨"2025-09-06", "Saturday"⟩,
           start_time := ⟨7, 0⟩, end_time := ⟨15, 0⟩, role := "BARISTA" }]
        [{ shift_id := 1, date := ⟨"2025-09-06", "Saturday"⟩ }]
        { default_requirements := [], weekend_requirements := [("BARISTA", 2)] } ↔
      countRoleOnDate
        [{ shift_id := 1, emp_id := 1, date := ⟨"2025-09-06", "Saturday"⟩,
           start_time := ⟨7, 0⟩, end_time := ⟨15, 0⟩, role := "BARISTA" },
         { shift_id := 1, emp_id := 2, date := ⟨"2025-09-06", "Saturday"⟩,
           start_time := ⟨7, 0⟩, end_time := ⟨15, 0⟩, role := "BARISTA" }]
        ⟨"2025-09-06", "Saturday"⟩ "BARISTA" = 2) :=
  C4_amended_exact_coverage_no_relaxation.1
    [{ shift_id := 1, emp_id := 1, date := ⟨"2025-09-06", "Saturday"⟩,
       start_time := ⟨7, 0⟩, end_time := ⟨15, 0⟩, role := "BARISTA" },
     { shift_id := 1, emp_id := 2, date := ⟨"2025-09-06", "Saturday"⟩,
       start_time := ⟨7, 0⟩, end_time := ⟨15, 0⟩, role := "BARISTA" }]
    [{ shift_id := 1, date := ⟨"2025-09-06", "Saturday"⟩ }]
    { default_requirements := [], weekend_requirements := [("BARISTA", 2)] }
    ⟨"2025-09-06", "Saturday"⟩ ("BARISTA", 2)
    (by decide) (by decide) (by decide) (by decide) (by decide)

end Roster
